import Mathlib

/-!
Verification of the reserved-name lookup engine of `src/generate.js`
(namebasehq/hs-names): the binary encoders `generateRaw` / `generateRawHash`
and the two binary-search readers (both named `Reserved` in the source; here
`Reserved` for the name-keyed reader and `HReserved` for the hash-keyed one).

Buffers are byte lists (`List Nat`); every read that Node would bounds-check
(`readUInt32LE`, and therefore `readU32`/`readU64` of the source) is modelled
as an `Option`, with `none` standing for the thrown `RangeError`.  Plain
index access `data[i]`, which yields `undefined` out of bounds in JS, is also
modelled as `Option` via `l[i]?`; proofs only ever traverse the in-bounds
paths, where the two agree.  A thrown `assert` is likewise `none`.
-/

namespace HsNames

/-- One finalized reservation record, the shape `generateRaw` /
`generateRawHash` consume: `name`, `target` and `hash` are byte lists
(ASCII / raw hash bytes).  `zeroed` stands for `embargoes.has(item.name)`,
the condition under which the encoders set flag bit 1. -/
structure Item where
  name : List Nat
  hash : List Nat
  target : List Nat
  root : Bool
  zeroed : Bool
  customValue : Option Nat
deriving DecidableEq

/-- A placeholder record, used only to state total indexing
(`items.getD i defItem`) in the lemmas below. -/
def defItem : Item := ⟨[], [], [], false, false, none⟩

/-- Modelled from the spec: `util.compare`, the sort comparator of
`sortAlpha` (its module `./util` is not part of the staged sources).
Spec §4.2: "byte-wise comparison of `name` (shorter-is-less on prefix ties
— i.e. standard lexicographic byte comparison extended by length)". -/
def specCompare : List Nat → List Nat → Ordering
  | [], [] => .eq
  | [], _ :: _ => .lt
  | _ :: _, [] => .gt
  | a :: as, b :: bs =>
    if a < b then .lt
    else if b < a then .gt
    else specCompare as bs

/-- The value-resolution rule of spec §4.1, stated from the spec's words for
the refinement comparison: default by root flag, then force 0 when zeroed,
then a present custom value wins last. -/
def resolveSpec (it : Item) (nameValue rootValue : Nat) : Nat :=
  let v := if it.root then rootValue else nameValue
  let v := if it.zeroed then 0 else v
  match it.customValue with
  | some c => c
  | none => v

/-! ### The encoders (`generateRaw`, `generateRawHash`) -/

/-- Little-endian 4-byte encoding, the layout `bw.writeU32` produces. -/
def writeU32 (n : Nat) : List Nat :=
  [n % 256, n / 256 % 256, n / 65536 % 256, n / 16777216 % 256]

/-- Little-endian 8-byte encoding, the layout `bw.writeU64` produces
(bufio splits into low and high 32-bit halves; it accepts only safe
integers, i.e. values below 2^53). -/
def writeU64 (n : Nat) : List Nat :=
  writeU32 (n % 4294967296) ++ writeU32 (n / 4294967296)

/-- The flag byte: bit 0 root, bit 1 zeroed (embargo), bit 2 custom value
present.  The source sets the bits with `|=`; the bits are disjoint, so
addition is the same. -/
def Item.flags (it : Item) : Nat :=
  (if it.root then 1 else 0) + (if it.zeroed then 2 else 0) +
    (if it.customValue.isSome then 4 else 0)

/-- One payload entry of the name-keyed table:
`writeU8(target.length); writeString(target); writeU8(flags);` and, when a
custom value is present, `writeU64(customValue)`. -/
def payloadBytes (it : Item) : List Nat :=
  [it.target.length] ++ it.target ++ [it.flags] ++
    (match it.customValue with
     | some v => writeU64 v
     | none => [])

/-- One fixed-width index entry of the name-keyed table:
`writeU8(name.length); writeString(name); fill(0, cap - name.length);`
then the (patched-in) absolute payload offset as a u32. -/
def indexEntry (cap : Nat) (off : Nat) (it : Item) : List Nat :=
  [it.name.length] ++ it.name ++ List.replicate (cap - it.name.length) 0 ++
    writeU32 off

/-- The absolute payload offsets the source patches into the index
(`bw.data.writeUInt32LE(bw.offset, item.pos)`): each item's offset is the
running total of the payload sizes before it, starting at `base`, the end
of the index area. -/
def offsetsFrom (psize : Item → Nat) (base : Nat) : List Item → List Nat
  | [] => []
  | it :: rest => base :: offsetsFrom psize (base + psize it) rest

/-- `largestName` of `generateRaw`: the running maximum of the name
lengths, starting at 0. -/
def largestName (items : List Item) : Nat :=
  items.foldl (fun m it => max m it.name.length) 0

/-- `generateRaw(items)` with the two global defaults as parameters:
header `u32 count, u8 largestName, u64 NAME_VALUE, u64 TLD_VALUE` (21
bytes), then the fixed-width index, then the payload area. -/
def generateRaw (items : List Item) (nameValue rootValue : Nat) : List Nat :=
  let cap := largestName items
  let isz := 1 + cap + 4
  let base := 21 + items.length * isz
  let offs := offsetsFrom (fun it => (payloadBytes it).length) base items
  writeU32 items.length ++ [cap] ++ writeU64 nameValue ++ writeU64 rootValue ++
    (List.zipWith (indexEntry cap) offs items).flatten ++
    (items.map payloadBytes).flatten

/-- One payload entry of the hash-keyed table: as `payloadBytes` but with
the extra label-length byte `writeU8(target.indexOf('.'))` after the flags.
(`indexOf` of an absent separator is -1, which `writeU8` would reject; the
valid inputs all contain a separator, where `List.findIdx` agrees.) -/
def hpayloadBytes (it : Item) : List Nat :=
  [it.target.length] ++ it.target ++ [it.flags] ++
    [it.target.findIdx (· == 46)] ++
    (match it.customValue with
     | some v => writeU64 v
     | none => [])

/-- One index entry of the hash-keyed table: the 32 raw hash bytes and the
patched-in absolute payload offset. -/
def hindexEntry (off : Nat) (it : Item) : List Nat :=
  it.hash ++ writeU32 off

/-- The comparator of `sortHash` (`a.hash.compare(b.hash)`), as the
non-strict relation a sort consumes. -/
def hashLe (a b : Item) : Prop := specCompare a.hash b.hash ≠ .gt

instance : DecidableRel hashLe := fun a b => by
  unfold hashLe; infer_instance

/-- `generateRawHash(items)`: the source first sorts the items in place by
hash (`items.sort(sortHash)`, modelled as an insertion sort by `hashLe`),
then writes header `u32 count, u64 NAME_VALUE, u64 TLD_VALUE` (20 bytes),
the 36-byte index entries, and the payload area. -/
def generateRawHash (items : List Item) (nameValue rootValue : Nat) : List Nat :=
  let s := items.insertionSort hashLe
  let base := 20 + s.length * 36
  let offs := offsetsFrom (fun it => (hpayloadBytes it).length) base s
  writeU32 s.length ++ writeU64 nameValue ++ writeU64 rootValue ++
    (List.zipWith hindexEntry offs s).flatten ++
    (s.map hpayloadBytes).flatten

/-! ### The readers -/

/-- `readU32` of the source (`data.readUInt32LE(off)`); Node throws a
`RangeError` when `off + 4` exceeds the buffer, modelled as `none`. -/
def readU32 (data : List Nat) (off : Nat) : Option Nat := do
  let b0 ← data[off]?
  let b1 ← data[off + 1]?
  let b2 ← data[off + 2]?
  let b3 ← data[off + 3]?
  pure (b0 + b1 * 256 + b2 * 65536 + b3 * 16777216)

/-- `readU64` of the source: `hi * 0x100000000 + lo` from two u32 reads. -/
def readU64 (data : List Nat) (off : Nat) : Option Nat := do
  let lo ← readU32 data off
  let hi ← readU32 data (off + 4)
  pure (hi * 4294967296 + lo)

/-- The name-keyed `Reserved`: the fields its constructor computes.
`offset` is always 21 and `indexSize` is `1 + nameSize + 4`; they are kept
as the functions below. -/
structure Reserved where
  data : List Nat
  size : Nat
  nameSize : Nat
  nameValue : Nat
  rootValue : Nat
deriving DecidableEq

/-- `indexSize = 1 + nameSize + 4` of the name-keyed constructor. -/
def Reserved.indexSize (t : Reserved) : Nat := 1 + t.nameSize + 4

/-- The name-keyed constructor `new Reserved(data)`: u32 size at 0, byte
`nameSize` at 4 (plain index access, never throwing), u64 defaults at 5 and
13.  The wrapping u32/u64 reads throw on a buffer shorter than the 21-byte
header, modelled by `none`. -/
def Reserved.openTable (data : List Nat) : Option Reserved := do
  let size ← readU32 data 0
  let nameValue ← readU64 data 5
  let rootValue ← readU64 data 13
  pure ⟨data, size, data.getD 4 0, nameValue, rootValue⟩

/-- The byte loop shared by both `_compare` methods: compare
`data[off + i]` with `b[i]` for `k` positions starting at `i`, returning on
the first difference. -/
def cmpLoop (data : List Nat) (off : Nat) (b : List Nat) : Nat → Nat → Option Ordering
  | _, 0 => some .eq
  | i, k + 1 => do
    let x ← data[off + i]?
    let y ← b[i]?
    if x < y then pure .lt
    else if y < x then pure .gt
    else cmpLoop data off b (i + 1) k

/-- `_compare(b, off)` of the name-keyed reader: the stored name starts at
`off` with its length byte at `off - 1`; compare the common prefix, then
break ties by length (shorter stored name sorts lower). -/
def Reserved.compareAt (t : Reserved) (b : List Nat) (off : Nat) : Option Ordering := do
  let alen ← t.data[off - 1]?
  let c ← cmpLoop t.data off b 0 (min alen b.length)
  if c = .eq then
    if alen < b.length then pure .lt
    else if b.length < alen then pure .gt
    else pure .eq
  else pure c

/-- The `while (start <= end)` binary-search loop shared by both `_find`
methods, abstracted over the probe (`cmp`) and the offset fetch at a hit
(`fetch`).  `start` stays a natural; `stop` is an integer because the JS
`end` reaches -1.  Each iteration shrinks `end - start` by at least one, so
fuel `size + 1` (what both `find`s pass) never runs out; `none` doubles for
the reader's thrown errors, and the lemmas below show the in-range runs
return `some`. -/
def searchLoop (cmp : Nat → Option Ordering) (fetch : Nat → Option Nat) :
    Nat → Nat → Int → Option (Option Nat)
  | 0, _, _ => none
  | fuel + 1, start, stop =>
    if (start : Int) ≤ stop then
      let index := (start + stop.toNat) / 2
      match cmp index with
      | none => none
      | some c =>
        if c = .eq then (fetch index).map some
        else if c = .lt then searchLoop cmp fetch fuel (index + 1) stop
        else searchLoop cmp fetch fuel start ((index : Int) - 1)
    else some none

/-- `_find(key)` of the name-keyed reader: probe entry `index` at
`pos = 21 + index * indexSize`, comparing at `pos + 1` and, on a hit,
reading the payload offset at `pos + 1 + nameSize`; `some none` is the
source's -1. -/
def Reserved.find (t : Reserved) (key : List Nat) : Option (Option Nat) :=
  searchLoop
    (fun index => t.compareAt key (21 + index * t.indexSize + 1))
    (fun index => readU32 t.data (21 + index * t.indexSize + 1 + t.nameSize))
    (t.size + 1) 0 ((t.size : Int) - 1)

/-- `readBytes data off k`: the `k` bytes at `off`, the range
`data.toString` decodes (the proofs only use it in bounds, where Node's
clamping never fires). -/
def readBytes (data : List Nat) : Nat → Nat → Option (List Nat)
  | _, 0 => some []
  | off, k + 1 => do
    let b ← data[off]?
    let rest ← readBytes data (off + 1) k
    pure (b :: rest)

/-- `_target(pos)`: length byte, then the target decoded with
`toString('ascii')`, which clears the high bit of every byte. -/
def targetAt (data : List Nat) (pos : Nat) : Option (List Nat) := do
  let len ← data[pos]?
  let bytes ← readBytes data (pos + 1) len
  pure (bytes.map (· % 128))

/-- `_flags(pos)`: the byte after the target. -/
def flagsAt (data : List Nat) (pos : Nat) : Option Nat := do
  let len ← data[pos]?
  data[pos + 1 + len]?

/-- `_value(pos)` of the name-keyed reader: the u64 after the flag byte. -/
def valueAt (data : List Nat) (pos : Nat) : Option Nat := do
  let len ← data[pos]?
  readU64 data (pos + 1 + len + 1)

/-- `_index(pos)` of the hash-keyed reader: the label-length byte after
the flags. -/
def indexAt (data : List Nat) (pos : Nat) : Option Nat := do
  let len ← data[pos]?
  data[pos + 1 + len + 1]?

/-- `_value(pos)` of the hash-keyed reader: the u64 after the label-length
byte. -/
def hvalueAt (data : List Nat) (pos : Nat) : Option Nat := do
  let len ← data[pos]?
  readU64 data (pos + 1 + len + 1 + 1)

/-- The record `get` returns in the name-keyed reader. -/
structure LookupResult where
  target : List Nat
  value : Nat
  root : Bool
deriving DecidableEq

/-- `has(name)` of the name-keyed reader: `null` (the inner `none`) for an
empty or over-capacity name, otherwise whether `_find` hit. -/
def Reserved.has (t : Reserved) (name : List Nat) : Option (Option Bool) :=
  if name.length = 0 ∨ name.length > t.nameSize then some none
  else
    match t.find name with
    | none => none
    | some p => some (some p.isSome)

/-- `get(name)` of the name-keyed reader: the length gate, `_find`, then
target, flags, and the value derivation in the source's order — default by
bit 0, zero by bit 1, custom value (bit 2) applied last. -/
def Reserved.get (t : Reserved) (name : List Nat) : Option (Option LookupResult) :=
  if name.length = 0 ∨ name.length > t.nameSize then some none
  else
    match t.find name with
    | none => none
    | some none => some none
    | some (some pos) => do
      let target ← targetAt t.data pos
      let flags ← flagsAt t.data pos
      let root := flags % 2 == 1
      let zero := flags / 2 % 2 == 1
      let custom := flags / 4 % 2 == 1
      let value0 := if root then t.rootValue else t.nameValue
      let value1 := if zero then 0 else value0
      let value ← if custom then valueAt t.data pos else pure value1
      pure (some ⟨target, value, root⟩)

/-- The hash-keyed `Reserved` (the second class of that name in the
source). -/
structure HReserved where
  data : List Nat
  size : Nat
  nameValue : Nat
  rootValue : Nat
deriving DecidableEq

/-- The hash-keyed constructor: u32 size at 0, u64 defaults at 4 and 12. -/
def HReserved.openTable (data : List Nat) : Option HReserved := do
  let size ← readU32 data 0
  let nameValue ← readU64 data 4
  let rootValue ← readU64 data 12
  pure ⟨data, size, nameValue, rootValue⟩

/-- `_compare(b, off)` of the hash-keyed reader: exactly 32 bytes, no
length tie-break. -/
def HReserved.compareAt (t : HReserved) (b : List Nat) (off : Nat) : Option Ordering :=
  cmpLoop t.data off b 0 32

/-- `_find(key)` of the hash-keyed reader: entries are 36 bytes from
offset 20; on a hit the payload offset sits after the 32 hash bytes. -/
def HReserved.find (t : HReserved) (key : List Nat) : Option (Option Nat) :=
  searchLoop
    (fun index => t.compareAt key (20 + index * 36))
    (fun index => readU32 t.data (20 + index * 36 + 32))
    (t.size + 1) 0 ((t.size : Int) - 1)

/-- The record `get` returns in the hash-keyed reader: it also recovers
`name` as `target.substring(0, labelLength)`. -/
structure HLookupResult where
  name : List Nat
  target : List Nat
  value : Nat
  root : Bool
deriving DecidableEq

/-- `has(hash)` of the hash-keyed reader: `assert(hash.length === 32)`
throws (modelled `none`) on any other length, then whether `_find` hit. -/
def HReserved.has (t : HReserved) (hash : List Nat) : Option Bool :=
  if hash.length = 32 then
    match t.find hash with
    | none => none
    | some p => some p.isSome
  else none

/-- `get(hash)` of the hash-keyed reader: the 32-byte assertion, `_find`,
then target, flags, label length, the recovered name, and the same value
derivation order as the name-keyed reader. -/
def HReserved.get (t : HReserved) (hash : List Nat) : Option (Option HLookupResult) :=
  if hash.length = 32 then
    match t.find hash with
    | none => none
    | some none => some none
    | some (some pos) => do
      let target ← targetAt t.data pos
      let flags ← flagsAt t.data pos
      let index ← indexAt t.data pos
      let root := flags % 2 == 1
      let zero := flags / 2 % 2 == 1
      let custom := flags / 4 % 2 == 1
      let name := target.take index
      let value0 := if root then t.rootValue else t.nameValue
      let value1 := if zero then 0 else value0
      let value ← if custom then hvalueAt t.data pos else pure value1
      pure (some ⟨name, target, value, root⟩)
  else none

/-- Opening a freshly generated name-keyed buffer and looking a key up, the
`encode → open → get` pipeline; `none` is a thrown error anywhere along the
way. -/
def nameLookup (buf key : List Nat) : Option (Option LookupResult) :=
  match Reserved.openTable buf with
  | none => none
  | some t => t.get key

/-- The `encode → open → has` pipeline of the name-keyed table. -/
def nameHas (buf key : List Nat) : Option (Option Bool) :=
  match Reserved.openTable buf with
  | none => none
  | some t => t.has key

/-- The `encode → open → get` pipeline of the hash-keyed table. -/
def hashLookup (buf key : List Nat) : Option (Option HLookupResult) :=
  match HReserved.openTable buf with
  | none => none
  | some t => t.get key

/-! ### Derived layout quantities and validity of encoder inputs -/

/-- The absolute payload offset of record `i` in the name-keyed buffer:
end of the index area plus the payload sizes before it (what the source
patches in at `item.pos`). -/
def poff (items : List Item) (i : Nat) : Nat :=
  21 + items.length * (1 + largestName items + 4) +
    ((items.take i).map (fun it => (payloadBytes it).length)).sum

/-- The absolute payload offset of record `i` of the hash-sorted list in
the hash-keyed buffer. -/
def hpoff (s : List Item) (i : Nat) : Nat :=
  20 + s.length * 36 + ((s.take i).map (fun it => (hpayloadBytes it).length)).sum

/-- The per-record validity the pipeline guarantees (spec §3/§4.2 and the
encoder's asserts): names of 1..63 bytes, targets of 1..255 ASCII bytes
(below 128, so `toString('ascii')` is faithful), and any custom value a
safe integer (below 2^53, what bufio's `writeU64` accepts). -/
def ValidItem (it : Item) : Prop :=
  0 < it.name.length ∧ it.name.length ≤ 63 ∧ (∀ b ∈ it.name, b < 256) ∧
    0 < it.target.length ∧ it.target.length ≤ 255 ∧ (∀ b ∈ it.target, b < 128) ∧
    it.customValue.getD 0 < 9007199254740992

/-- A valid input batch for the name-keyed encoder: valid records, sorted
strictly by `util.compare` on names (`getList` sorts with `sortAlpha` and
names are unique), safe-integer defaults, and a total size the u32 payload
offsets can address. -/
def ValidInput (items : List Item) (nv rv : Nat) : Prop :=
  (∀ it ∈ items, ValidItem it) ∧
    items.Pairwise (fun a b => specCompare a.name b.name = .lt) ∧
    nv < 9007199254740992 ∧ rv < 9007199254740992 ∧
    (generateRaw items nv rv).length < 4294967296

/-- Per-record validity for the hash-keyed encoder: additionally a 32-byte
hash and a separator somewhere in the target (every target ends in `'.'`),
so `writeU8(target.indexOf('.'))` is a real byte. -/
def HValidItem (it : Item) : Prop :=
  ValidItem it ∧ it.hash.length = 32 ∧ (∀ b ∈ it.hash, b < 256) ∧ 46 ∈ it.target

/-- A valid input batch for the hash-keyed encoder: valid records with
pairwise-distinct hashes (the hash is injective on the unique names),
safe-integer defaults, and an addressable total size. -/
def HValidInput (items : List Item) (nv rv : Nat) : Prop :=
  (∀ it ∈ items, HValidItem it) ∧ (items.map Item.hash).Nodup ∧
    nv < 9007199254740992 ∧ rv < 9007199254740992 ∧
    (generateRawHash items nv rv).length < 4294967296

instance : DecidablePred ValidItem := fun it => by
  unfold ValidItem; infer_instance

instance (items : List Item) (nv rv : Nat) : Decidable (ValidInput items nv rv) := by
  unfold ValidInput; infer_instance

instance : DecidablePred HValidItem := fun it => by
  unfold HValidItem; infer_instance

instance (items : List Item) (nv rv : Nat) : Decidable (HValidInput items nv rv) := by
  unfold HValidInput; infer_instance

/-! ### Concrete records (spec §8's three-record scenario, ASCII bytes) -/

/-- `{name:"bitcoin", target:"bitcoin.", root:false}`. -/
def itemBitcoin : Item :=
  ⟨[98, 105, 116, 99, 111, 105, 110], [], [98, 105, 116, 99, 111, 105, 110, 46],
    false, false, none⟩

/-- `{name:"com", target:"com.", root:true}`. -/
def itemCom : Item := ⟨[99, 111, 109], [], [99, 111, 109, 46], true, false, none⟩

/-- `{name:"cu", target:"cu.", root:false, zeroed:true}` (`cu` is in the
embargo set). -/
def itemCu : Item := ⟨[99, 117], [], [99, 117, 46], false, true, none⟩

/-- The three records in the byte-wise name order the pipeline sorts them
into before `generateRaw` ("bitcoin" < "com" < "cu"). -/
def demoItems : List Item := [itemBitcoin, itemCom, itemCu]

/-- A 32-byte stand-in hash. -/
def demoHash1 : List Nat := List.replicate 31 0 ++ [1]

/-- A second, larger 32-byte stand-in hash. -/
def demoHash2 : List Nat := List.replicate 31 0 ++ [2]

/-- "com" with hash `demoHash2` for the hash-keyed table. -/
def hitemCom : Item :=
  ⟨[99, 111, 109], demoHash2, [99, 111, 109, 46], true, false, none⟩

/-- "cu" (zeroed) with hash `demoHash1` for the hash-keyed table. -/
def hitemCu : Item := ⟨[99, 117], demoHash1, [99, 117, 46], false, true, none⟩

/-- A two-record input for the hash-keyed encoder. -/
def demoHashItems : List Item := [hitemCom, hitemCu]

/-- `{name:"aa", target:"aa.", zeroed:true, customValue:5000}`: both the
embargo flag and a custom value set. -/
def itemZc : Item := ⟨[97, 97], [], [97, 97, 46], false, true, some 5000⟩

/-- A one-record input whose record is both zeroed and custom-valued. -/
def demoZcItems : List Item := [itemZc]

/-- `{name:"co", target:"co.", root:false}`: a byte-wise proper front part
of "com". -/
def itemCo : Item := ⟨[99, 111], [], [99, 111, 46], false, false, none⟩

/-- "co" and "com" together, in sorted order (shorter first). -/
def demoCoComItems : List Item := [itemCo, itemCom]

/-- A malformed 21-byte buffer: its record-count field says 5 records, but
no index or payload follows. -/
def badBuf : List Nat := [5, 0, 0, 0] ++ List.replicate 17 0

/-! ### Order lemmas for `specCompare` -/

theorem specCompare_eq_iff (a : List Nat) : ∀ b, specCompare a b = .eq ↔ a = b := by
  induction a with
  | nil => intro b; cases b <;> simp [specCompare]
  | cons x xs ih =>
    intro b
    cases b with
    | nil => simp [specCompare]
    | cons y ys =>
      simp only [specCompare]
      by_cases h1 : x < y
      · simp only [if_pos h1]
        constructor
        · intro h; cases h
        · rintro ⟨⟩; omega
      · by_cases h2 : y < x
        · simp only [if_neg h1, if_pos h2]
          constructor
          · intro h; cases h
          · rintro ⟨⟩; omega
        · have hxy : x = y := by omega
          simp [if_neg h1, if_neg h2, hxy, ih ys]

theorem specCompare_refl (a : List Nat) : specCompare a a = .eq :=
  (specCompare_eq_iff a a).mpr rfl

theorem specCompare_swap (a : List Nat) : ∀ b, specCompare b a = (specCompare a b).swap := by
  induction a with
  | nil => intro b; cases b <;> simp [specCompare, Ordering.swap]
  | cons x xs ih =>
    intro b
    cases b with
    | nil => simp [specCompare, Ordering.swap]
    | cons y ys =>
      simp only [specCompare]
      by_cases h1 : x < y
      · have h2 : ¬ y < x := by omega
        simp [h1, h2, Ordering.swap]
      · by_cases h2 : y < x
        · simp [h1, h2, Ordering.swap]
        · simp [h1, h2, ih ys]

theorem specCompare_cons_lt (x y : Nat) (xs ys : List Nat) :
    specCompare (x :: xs) (y :: ys) = .lt ↔
      x < y ∨ (x = y ∧ specCompare xs ys = .lt) := by
  simp only [specCompare]
  by_cases h1 : x < y
  · simp [h1]
  · by_cases h2 : y < x
    · simp only [if_neg h1, if_pos h2]
      constructor
      · intro h; cases h
      · intro h; omega
    · have hxy : x = y := by omega
      simp [h1, h2, hxy]

theorem specCompare_lt_trans (a : List Nat) :
    ∀ b c, specCompare a b = .lt → specCompare b c = .lt → specCompare a c = .lt := by
  induction a with
  | nil =>
    intro b c hab hbc
    cases b with
    | nil => cases hab
    | cons y ys =>
      cases c with
      | nil => cases hbc
      | cons z zs => simp [specCompare]
  | cons x xs ih =>
    intro b c hab hbc
    cases b with
    | nil => cases hab
    | cons y ys =>
      cases c with
      | nil => cases hbc
      | cons z zs =>
        rw [specCompare_cons_lt] at hab hbc ⊢
        rcases hab with h | ⟨hxy, hab⟩
        · rcases hbc with h' | ⟨hyz, _⟩
          · left; omega
          · left; omega
        · rcases hbc with h' | ⟨hyz, hbc⟩
          · left; omega
          · right; exact ⟨by omega, ih ys zs hab hbc⟩

theorem specCompare_ne_gt_iff (a b : List Nat) :
    specCompare a b ≠ .gt ↔ specCompare a b = .lt ∨ a = b := by
  rcases h : specCompare a b with _ | _ | _
  · simp [h]
  · simp [← specCompare_eq_iff a b, h]
  · constructor
    · intro hgt; exact absurd rfl hgt
    · rintro (hlt | heq)
      · cases hlt
      · rw [heq, specCompare_refl] at h; cases h

instance : IsTotal Item hashLe :=
  ⟨fun a b => by
    unfold hashLe
    by_cases h : specCompare a.hash b.hash = .gt
    · right
      rw [specCompare_swap, h]
      simp [Ordering.swap]
    · left; exact h⟩

instance : IsTrans Item hashLe :=
  ⟨fun a b c hab hbc => by
    unfold hashLe at *
    rw [specCompare_ne_gt_iff] at hab hbc ⊢
    rcases hab with hab | hab
    · rcases hbc with hbc | hbc
      · exact Or.inl (specCompare_lt_trans _ _ _ hab hbc)
      · exact Or.inl (hbc ▸ hab)
    · rcases hbc with hbc | hbc
      · exact Or.inl (hab ▸ hbc)
      · exact Or.inr (hab.trans hbc)⟩

/-! ### Byte-level access lemmas -/

theorem getElem?_after (pre rest : List Nat) (off j : Nat) (hoff : off = pre.length) :
    (pre ++ rest)[off + j]? = rest[j]? := by
  subst hoff
  rw [List.getElem?_append_right (Nat.le_add_right _ _)]
  simp

theorem byte_at (pre rest : List Nat) (x : Nat) (off : Nat) (hoff : off = pre.length) :
    (pre ++ (x :: rest))[off]? = some x := by
  have h := getElem?_after pre (x :: rest) off 0 hoff
  simpa using h

theorem bytes_at (pre mid rest : List Nat) (off j : Nat) (hoff : off = pre.length)
    (hj : j < mid.length) :
    (pre ++ (mid ++ rest))[off + j]? = some mid[j] := by
  rw [getElem?_after pre _ off j hoff, List.getElem?_append_left hj,
    List.getElem?_eq_getElem hj]

theorem readU32_at (pre rest : List Nat) (m off : Nat) (hoff : off = pre.length) :
    readU32 (pre ++ (writeU32 m ++ rest)) off = some (m % 4294967296) := by
  subst hoff
  have h0 := bytes_at pre (writeU32 m) rest pre.length 0 rfl (by simp [writeU32])
  have h1 := bytes_at pre (writeU32 m) rest pre.length 1 rfl (by simp [writeU32])
  have h2 := bytes_at pre (writeU32 m) rest pre.length 2 rfl (by simp [writeU32])
  have h3 := bytes_at pre (writeU32 m) rest pre.length 3 rfl (by simp [writeU32])
  simp only [writeU32, Nat.add_zero, List.getElem_cons_zero, List.getElem_cons_succ]
    at h0 h1 h2 h3
  simp only [readU32, writeU32, h0, h1, h2, h3, Option.bind_eq_bind,
    Option.some_bind, Option.pure_def]
  congr 1
  omega

theorem readU32_at_lt (pre rest : List Nat) (m off : Nat) (hoff : off = pre.length)
    (hm : m < 4294967296) :
    readU32 (pre ++ (writeU32 m ++ rest)) off = some m := by
  rw [readU32_at pre rest m off hoff, Nat.mod_eq_of_lt hm]

theorem readU64_at (pre rest : List Nat) (v off : Nat) (hoff : off = pre.length)
    (hv : v < 18446744073709551616) :
    readU64 (pre ++ (writeU64 v ++ rest)) off = some v := by
  subst hoff
  have e : pre ++ (writeU64 v ++ rest) =
      pre ++ (writeU32 (v % 4294967296) ++ (writeU32 (v / 4294967296) ++ rest)) := by
    simp [writeU64, List.append_assoc]
  have hlo := readU32_at pre (writeU32 (v / 4294967296) ++ rest) (v % 4294967296)
    pre.length rfl
  have hhi := readU32_at (pre ++ writeU32 (v % 4294967296)) rest (v / 4294967296)
    (pre.length + 4) (by simp [writeU32])
  rw [List.append_assoc] at hhi
  rw [readU64, e]
  simp only [hlo, hhi, Option.bind_eq_bind, Option.some_bind, Option.pure_def]
  congr 1
  omega

theorem readBytes_at (mid : List Nat) : ∀ (pre rest : List Nat) (off : Nat),
    off = pre.length →
    readBytes (pre ++ (mid ++ rest)) off mid.length = some mid := by
  induction mid with
  | nil => intro pre rest off h; simp [readBytes]
  | cons x xs ih =>
    intro pre rest off h
    have hshape : pre ++ (x :: xs ++ rest) = pre ++ (x :: (xs ++ rest)) := by simp
    have hx : (pre ++ (x :: (xs ++ rest)))[off]? = some x := byte_at pre _ x off h
    have hrec := ih (pre ++ [x]) rest (off + 1) (by simp [h])
    have hshape2 : (pre ++ [x]) ++ (xs ++ rest) = pre ++ (x :: (xs ++ rest)) := by simp
    rw [hshape2] at hrec
    rw [List.length_cons, hshape, readBytes, hx]
    simp only [Option.bind_eq_bind, Option.some_bind, hrec, Option.pure_def]

/-! ### Layout of the encoded buffers -/

theorem flatten_chunk (L : List (List Nat)) : ∀ (i : Nat) (hi : i < L.length),
    ∃ pre post, L.flatten = pre ++ (L[i] ++ post) ∧
      pre.length = ((L.take i).map List.length).sum := by
  induction L with
  | nil => intro i hi; simp at hi
  | cons x xs ih =>
    intro i hi
    cases i with
    | zero => exact ⟨[], xs.flatten, by simp, by simp⟩
    | succ n =>
      obtain ⟨pre, post, heq, hlen⟩ := ih n (by simpa using hi)
      refine ⟨x ++ pre, post, ?_, ?_⟩
      · simp [heq]
      · simp [hlen]

theorem sum_map_take_const {α : Type} (f : α → Nat) (c : Nat) :
    ∀ (L : List α), (∀ x ∈ L, f x = c) → ∀ i, i ≤ L.length →
      ((L.take i).map f).sum = i * c := by
  intro L
  induction L with
  | nil =>
    intro _ i hi
    have hz : i = 0 := by simpa using hi
    subst hz; simp
  | cons x xs ih =>
    intro h i hi
    cases i with
    | zero => simp
    | succ n =>
      have hx : f x = c := h x (by simp)
      have hrec := ih (fun y hy => h y (by simp [hy])) n (by simpa using hi)
      simp only [List.take_succ_cons, List.map_cons, List.sum_cons, hx, hrec,
        Nat.succ_mul]
      omega

theorem flatten_length_const (L : List (List Nat)) (c : Nat)
    (h : ∀ x ∈ L, x.length = c) : L.flatten.length = L.length * c := by
  rw [List.length_flatten]
  have := sum_map_take_const List.length c L h L.length le_rfl
  simpa using this

theorem offsetsFrom_length (psize : Item → Nat) : ∀ (b : Nat) (l : List Item),
    (offsetsFrom psize b l).length = l.length := by
  intro b l
  induction l generalizing b with
  | nil => simp [offsetsFrom]
  | cons x xs ih => simp [offsetsFrom, ih]

theorem offsetsFrom_getElem? (psize : Item → Nat) : ∀ (l : List Item) (b i : Nat),
    i < l.length →
    (offsetsFrom psize b l)[i]? = some (b + ((l.take i).map psize).sum) := by
  intro l
  induction l with
  | nil => intro b i hi; simp at hi
  | cons x xs ih =>
    intro b i hi
    cases i with
    | zero => simp [offsetsFrom]
    | succ n =>
      have := ih (b + psize x) n (by simpa using hi)
      simp only [offsetsFrom, List.getElem?_cons_succ, this, List.take_succ_cons,
        List.map_cons, List.sum_cons]
      congr 1
      omega

theorem foldl_max_ge_init (l : List Item) :
    ∀ b : Nat, b ≤ l.foldl (fun m it => max m it.name.length) b := by
  induction l with
  | nil => intro b; simp
  | cons y ys ih =>
    intro b
    simp only [List.foldl_cons]
    exact le_trans (Nat.le_max_left _ _) (ih _)

theorem largestName_ge (items : List Item) :
    ∀ it ∈ items, it.name.length ≤ largestName items := by
  suffices h : ∀ (init : Nat),
      ∀ it ∈ items, it.name.length ≤ items.foldl (fun m it => max m it.name.length) init by
    exact h 0
  induction items with
  | nil => intro init it hit; simp at hit
  | cons x xs ih =>
    intro init it hit
    simp only [List.foldl_cons]
    rcases List.mem_cons.mp hit with rfl | hmem
    · exact le_trans (Nat.le_max_right _ _) (foldl_max_ge_init xs _)
    · exact ih _ it hmem

theorem largestName_le (items : List Item) (c : Nat)
    (h : ∀ it ∈ items, it.name.length ≤ c) : largestName items ≤ c := by
  suffices hgen : ∀ (init : Nat), init ≤ c →
      items.foldl (fun m it => max m it.name.length) init ≤ c by
    exact hgen 0 (Nat.zero_le c)
  induction items with
  | nil => intro init hinit; simpa using hinit
  | cons x xs ih =>
    intro init hinit
    simp only [List.foldl_cons]
    exact ih (fun it hit => h it (by simp [hit])) _
      (max_le hinit (h x (by simp)))

theorem indexEntry_length (cap off : Nat) (it : Item) (h : it.name.length ≤ cap) :
    (indexEntry cap off it).length = 1 + cap + 4 := by
  simp [indexEntry, writeU32]
  omega

theorem payloadBytes_length (it : Item) :
    (payloadBytes it).length =
      1 + it.target.length + 1 + (if it.customValue.isSome then 8 else 0) := by
  cases h : it.customValue <;>
    simp [payloadBytes, writeU64, writeU32, h] <;> omega

theorem generateRaw_eq (items : List Item) (nv rv : Nat) :
    generateRaw items nv rv =
      writeU32 items.length ++ [largestName items] ++ writeU64 nv ++ writeU64 rv ++
        (List.zipWith (indexEntry (largestName items))
          (offsetsFrom (fun it => (payloadBytes it).length)
            (21 + items.length * (1 + largestName items + 4)) items) items).flatten ++
        (items.map payloadBytes).flatten := rfl

theorem generateRawHash_eq (items : List Item) (nv rv : Nat) :
    generateRawHash items nv rv =
      writeU32 (items.insertionSort hashLe).length ++ writeU64 nv ++ writeU64 rv ++
        (List.zipWith hindexEntry
          (offsetsFrom (fun it => (hpayloadBytes it).length)
            (20 + (items.insertionSort hashLe).length * 36) (items.insertionSort hashLe))
          (items.insertionSort hashLe)).flatten ++
        ((items.insertionSort hashLe).map hpayloadBytes).flatten := rfl

theorem prefix_sum_le (f : Item → Nat) (l : List Item) (i : Nat) :
    ((l.take i).map f).sum ≤ (l.map f).sum := by
  conv_rhs => rw [← List.take_append_drop i l]
  rw [List.map_append, List.sum_append]
  exact Nat.le_add_right _ _

theorem hpayloadBytes_length (it : Item) :
    (hpayloadBytes it).length =
      1 + it.target.length + 2 + (if it.customValue.isSome then 8 else 0) := by
  cases h : it.customValue <;>
    simp [hpayloadBytes, writeU64, writeU32, h] <;> omega

theorem index_entries_const (items : List Item) (base : Nat) :
    ∀ x ∈ List.zipWith (indexEntry (largestName items))
        (offsetsFrom (fun it => (payloadBytes it).length) base items) items,
      x.length = 1 + largestName items + 4 := by
  intro x hx
  obtain ⟨j, hj, rfl⟩ := List.getElem_of_mem hx
  have hj2 : j < items.length := by
    have := List.length_zipWith (indexEntry (largestName items))
      (offsetsFrom (fun it => (payloadBytes it).length) base items) items
    rw [this, offsetsFrom_length] at hj
    omega
  rw [List.getElem_zipWith]
  exact indexEntry_length _ _ _ (largestName_ge items _ (List.getElem_mem hj2))

theorem generateRaw_length (items : List Item) (nv rv : Nat) :
    (generateRaw items nv rv).length =
      21 + items.length * (1 + largestName items + 4) +
        (items.map (fun it => (payloadBytes it).length)).sum := by
  rw [generateRaw_eq]
  have hidx := flatten_length_const
    (List.zipWith (indexEntry (largestName items))
      (offsetsFrom (fun it => (payloadBytes it).length)
        (21 + items.length * (1 + largestName items + 4)) items) items)
    (1 + largestName items + 4) (index_entries_const items _)
  have hzlen : (List.zipWith (indexEntry (largestName items))
      (offsetsFrom (fun it => (payloadBytes it).length)
        (21 + items.length * (1 + largestName items + 4)) items) items).length =
      items.length := by
    rw [List.length_zipWith, offsetsFrom_length]
    omega
  rw [hzlen] at hidx
  have hpay : ((items.map payloadBytes).flatten).length =
      (items.map (fun it => (payloadBytes it).length)).sum := by
    rw [List.length_flatten, List.map_map]
    rfl
  simp only [List.length_append, hidx, hpay, writeU32, writeU64]
  simp [writeU32]

theorem poff_le_length (items : List Item) (nv rv i : Nat) :
    poff items i ≤ (generateRaw items nv rv).length := by
  rw [generateRaw_length, poff]
  have := prefix_sum_le (fun it => (payloadBytes it).length) items i
  omega

theorem index_decomp (items : List Item) (nv rv : Nat) (i : Nat) (hi : i < items.length) :
    ∃ pre rest, generateRaw items nv rv =
        pre ++ (indexEntry (largestName items) (poff items i) (items[i]) ++ rest) ∧
      pre.length = 21 + i * (1 + largestName items + 4) := by
  rw [generateRaw_eq]
  have hzlen : (List.zipWith (indexEntry (largestName items))
      (offsetsFrom (fun it => (payloadBytes it).length)
        (21 + items.length * (1 + largestName items + 4)) items) items).length =
      items.length := by
    rw [List.length_zipWith, offsetsFrom_length]
    omega
  obtain ⟨p, q, hflat, hplen⟩ := flatten_chunk _ i (by omega : i < (List.zipWith
    (indexEntry (largestName items)) (offsetsFrom (fun it => (payloadBytes it).length)
      (21 + items.length * (1 + largestName items + 4)) items) items).length)
  have hoffi := offsetsFrom_getElem? (fun it => (payloadBytes it).length)
    items (21 + items.length * (1 + largestName items + 4)) i hi
  have hioff : i < (offsetsFrom (fun it => (payloadBytes it).length)
      (21 + items.length * (1 + largestName items + 4)) items).length := by
    rw [offsetsFrom_length]; exact hi
  rw [List.getElem?_eq_getElem hioff] at hoffi
  have hLi : (List.zipWith (indexEntry (largestName items))
      (offsetsFrom (fun it => (payloadBytes it).length)
        (21 + items.length * (1 + largestName items + 4)) items) items)[i] =
      indexEntry (largestName items) (poff items i) (items[i]) := by
    rw [List.getElem_zipWith]
    congr 1
    rw [Option.some_inj.mp hoffi, poff]
  rw [hLi] at hflat
  have hplen2 : p.length = i * (1 + largestName items + 4) := by
    rw [hplen]
    exact sum_map_take_const List.length (1 + largestName items + 4) _
      (index_entries_const items _) i (by omega)
  refine ⟨writeU32 items.length ++ [largestName items] ++ writeU64 nv ++ writeU64 rv ++ p,
    q ++ (items.map payloadBytes).flatten, ?_, ?_⟩
  · rw [hflat]
    simp [List.append_assoc]
  · simp [writeU32, writeU64, hplen2]
    omega

theorem payload_decomp (items : List Item) (nv rv : Nat) (i : Nat) (hi : i < items.length) :
    ∃ pre rest, generateRaw items nv rv =
        pre ++ (payloadBytes (items[i]) ++ rest) ∧
      pre.length = poff items i := by
  rw [generateRaw_eq]
  have hmlen : i < (items.map payloadBytes).length := by simpa using hi
  obtain ⟨p, q, hflat, hplen⟩ := flatten_chunk (items.map payloadBytes) i hmlen
  have hMi : (items.map payloadBytes)[i] = payloadBytes (items[i]) :=
    List.getElem_map payloadBytes
  rw [hMi] at hflat
  have hzlen : (List.zipWith (indexEntry (largestName items))
      (offsetsFrom (fun it => (payloadBytes it).length)
        (21 + items.length * (1 + largestName items + 4)) items) items).length =
      items.length := by
    rw [List.length_zipWith, offsetsFrom_length]
    omega
  have hidxlen := flatten_length_const
    (List.zipWith (indexEntry (largestName items))
      (offsetsFrom (fun it => (payloadBytes it).length)
        (21 + items.length * (1 + largestName items + 4)) items) items)
    (1 + largestName items + 4) (index_entries_const items _)
  rw [hzlen] at hidxlen
  have hplen2 : p.length = ((items.take i).map (fun it => (payloadBytes it).length)).sum := by
    rw [hplen, ← List.map_take, List.map_map]
    rfl
  refine ⟨writeU32 items.length ++ [largestName items] ++ writeU64 nv ++ writeU64 rv ++
      (List.zipWith (indexEntry (largestName items))
        (offsetsFrom (fun it => (payloadBytes it).length)
          (21 + items.length * (1 + largestName items + 4)) items) items).flatten ++ p,
    q, ?_, ?_⟩
  · rw [hflat]
    simp [List.append_assoc]
  · simp only [List.length_append, hidxlen, hplen2, poff]
    simp [writeU32, writeU64]

/-! ### Opening generated buffers -/

theorem openTable_generateRaw (items : List Item) (nv rv : Nat)
    (hn : items.length < 4294967296) (hnv : nv < 18446744073709551616)
    (hrv : rv < 18446744073709551616) :
    Reserved.openTable (generateRaw items nv rv) =
      some ⟨generateRaw items nv rv, items.length, largestName items, nv, rv⟩ := by
  have hshape : generateRaw items nv rv =
      writeU32 items.length ++ (largestName items :: (writeU64 nv ++ (writeU64 rv ++
        ((List.zipWith (indexEntry (largestName items))
          (offsetsFrom (fun it => (payloadBytes it).length)
            (21 + items.length * (1 + largestName items + 4)) items) items).flatten ++
         (items.map payloadBytes).flatten)))) := by
    rw [generateRaw_eq]
    simp [List.append_assoc]
  have h0 : readU32 (generateRaw items nv rv) 0 = some items.length := by
    rw [hshape]
    exact readU32_at_lt [] _ items.length 0 (by simp) hn
  have h4 : (generateRaw items nv rv)[4]? = some (largestName items) := by
    rw [hshape]
    exact byte_at (writeU32 items.length) _ (largestName items) 4 (by simp [writeU32])
  have h5 : readU64 (generateRaw items nv rv) 5 = some nv := by
    have e : generateRaw items nv rv =
        (writeU32 items.length ++ [largestName items]) ++ (writeU64 nv ++ (writeU64 rv ++
          ((List.zipWith (indexEntry (largestName items))
            (offsetsFrom (fun it => (payloadBytes it).length)
              (21 + items.length * (1 + largestName items + 4)) items) items).flatten ++
           (items.map payloadBytes).flatten))) := by
      rw [hshape]; simp
    rw [e]
    exact readU64_at _ _ nv 5 (by simp [writeU32]) hnv
  have h13 : readU64 (generateRaw items nv rv) 13 = some rv := by
    have e : generateRaw items nv rv =
        (writeU32 items.length ++ [largestName items] ++ writeU64 nv) ++ (writeU64 rv ++
          ((List.zipWith (indexEntry (largestName items))
            (offsetsFrom (fun it => (payloadBytes it).length)
              (21 + items.length * (1 + largestName items + 4)) items) items).flatten ++
           (items.map payloadBytes).flatten)) := by
      rw [hshape]; simp
    rw [e]
    exact readU64_at _ _ rv 13 (by simp [writeU32, writeU64]) hrv
  rw [Reserved.openTable]
  simp only [h0, h5, h13, Option.bind_eq_bind, Option.some_bind, Option.pure_def]
  rw [List.getD_eq_getElem?_getD, h4]
  rfl

theorem openTable_generateRawHash (items : List Item) (nv rv : Nat)
    (hn : (items.insertionSort hashLe).length < 4294967296)
    (hnv : nv < 18446744073709551616) (hrv : rv < 18446744073709551616) :
    HReserved.openTable (generateRawHash items nv rv) =
      some ⟨generateRawHash items nv rv, (items.insertionSort hashLe).length, nv, rv⟩ := by
  have hshape : generateRawHash items nv rv =
      writeU32 (items.insertionSort hashLe).length ++ (writeU64 nv ++ (writeU64 rv ++
        ((List.zipWith hindexEntry
          (offsetsFrom (fun it => (hpayloadBytes it).length)
            (20 + (items.insertionSort hashLe).length * 36) (items.insertionSort hashLe))
          (items.insertionSort hashLe)).flatten ++
         ((items.insertionSort hashLe).map hpayloadBytes).flatten))) := by
    rw [generateRawHash_eq]
    simp [List.append_assoc]
  have h0 : readU32 (generateRawHash items nv rv) 0 =
      some (items.insertionSort hashLe).length := by
    rw [hshape]
    exact readU32_at_lt [] _ (items.insertionSort hashLe).length 0 (by simp) hn
  have h4 : readU64 (generateRawHash items nv rv) 4 = some nv := by
    have e : generateRawHash items nv rv =
        writeU32 (items.insertionSort hashLe).length ++ (writeU64 nv ++ (writeU64 rv ++
          ((List.zipWith hindexEntry
            (offsetsFrom (fun it => (hpayloadBytes it).length)
              (20 + (items.insertionSort hashLe).length * 36) (items.insertionSort hashLe))
            (items.insertionSort hashLe)).flatten ++
           ((items.insertionSort hashLe).map hpayloadBytes).flatten))) := hshape
    rw [e]
    exact readU64_at _ _ nv 4 (by simp [writeU32]) hnv
  have h12 : readU64 (generateRawHash items nv rv) 12 = some rv := by
    have e : generateRawHash items nv rv =
        (writeU32 (items.insertionSort hashLe).length ++ writeU64 nv) ++ (writeU64 rv ++
          ((List.zipWith hindexEntry
            (offsetsFrom (fun it => (hpayloadBytes it).length)
              (20 + (items.insertionSort hashLe).length * 36) (items.insertionSort hashLe))
            (items.insertionSort hashLe)).flatten ++
           ((items.insertionSort hashLe).map hpayloadBytes).flatten)) := by
      rw [hshape]; simp
    rw [e]
    exact readU64_at _ _ rv 12 (by simp [writeU32, writeU64]) hrv
  rw [HReserved.openTable]
  simp only [h0, h4, h12, Option.bind_eq_bind, Option.some_bind, Option.pure_def]

/-! ### The comparator loop against `specCompare` -/

theorem specCompare_append_cancel : ∀ (p a' b' : List Nat),
    specCompare (p ++ a') (p ++ b') = specCompare a' b' := by
  intro p
  induction p with
  | nil => intro a' b'; rfl
  | cons x xs ih =>
    intro a' b'
    simp only [List.cons_append, specCompare, lt_irrefl, if_false]
    exact ih a' b'

theorem specCompare_append_of_lt : ∀ (ta tb : List Nat), ta.length = tb.length →
    specCompare ta tb = .lt → ∀ x y, specCompare (ta ++ x) (tb ++ y) = .lt := by
  intro ta
  induction ta with
  | nil =>
    intro tb hlen hlt
    cases tb with
    | nil => cases hlt
    | cons u us => simp at hlen
  | cons v vs ih =>
    intro tb hlen hlt x y
    cases tb with
    | nil => simp at hlen
    | cons u us =>
      rw [specCompare_cons_lt] at hlt
      simp only [List.cons_append]
      rw [specCompare_cons_lt]
      rcases hlt with h | ⟨hv, hlt⟩
      · exact Or.inl h
      · exact Or.inr ⟨hv, ih us (by simpa using hlen) hlt x y⟩

theorem specCompare_eval (a b : List Nat) (c : Ordering)
    (hc : specCompare (a.take (min a.length b.length))
      (b.take (min a.length b.length)) = c) :
    specCompare a b =
      if c = .eq then
        (if a.length < b.length then Ordering.lt
         else if b.length < a.length then Ordering.gt else Ordering.eq)
      else c := by
  have hta : (a.take (min a.length b.length)).length = min a.length b.length := by
    simp
  have htb : (b.take (min a.length b.length)).length = min a.length b.length := by
    simp
  have key : specCompare (a.take (min a.length b.length) ++ a.drop (min a.length b.length))
      (b.take (min a.length b.length) ++ b.drop (min a.length b.length)) =
      specCompare a b := by
    rw [List.take_append_drop, List.take_append_drop]
  rcases hord : c with _ | _ | _
  · subst hord
    rw [if_neg (by simp)]
    rw [← key]
    exact specCompare_append_of_lt _ _ (hta.trans htb.symm) hc _ _
  · subst hord
    rw [if_pos rfl]
    have hab : a.take (min a.length b.length) = b.take (min a.length b.length) :=
      (specCompare_eq_iff _ _).mp hc
    rw [← key, hab, specCompare_append_cancel]
    rcases Nat.lt_trichotomy a.length b.length with h | h | h
    · rw [if_pos h]
      have hda : a.drop (min a.length b.length) = [] := by
        have : min a.length b.length = a.length := by omega
        rw [this, List.drop_length]
      have hdb : b.drop (min a.length b.length) ≠ [] := by
        have h2 : (b.drop (min a.length b.length)).length = b.length - a.length := by
          simp; omega
        intro hnil
        rw [hnil] at h2
        simp at h2
        omega
      rw [hda]
      rcases hd : b.drop (min a.length b.length) with _ | ⟨z, zs⟩
      · exact absurd hd hdb
      · rfl
    · rw [if_neg (by omega), if_neg (by omega)]
      have hm : min a.length b.length = a.length := by omega
      have hda : a.drop (min a.length b.length) = [] := by rw [hm, List.drop_length]
      have hdb : b.drop (min a.length b.length) = [] := by
        rw [hm, h, List.drop_length]
      rw [hda, hdb]
      rfl
    · rw [if_neg (by omega), if_pos h]
      have hdb : b.drop (min a.length b.length) = [] := by
        have : min a.length b.length = b.length := by omega
        rw [this, List.drop_length]
      have hda : a.drop (min a.length b.length) ≠ [] := by
        have h2 : (a.drop (min a.length b.length)).length = a.length - b.length := by
          simp; omega
        intro hnil
        rw [hnil] at h2
        simp at h2
        omega
      rw [hdb]
      rcases hd : a.drop (min a.length b.length) with _ | ⟨z, zs⟩
      · exact absurd hd hda
      · rfl
  · subst hord
    rw [if_neg (by simp)]
    have hswap : specCompare (b.take (min a.length b.length))
        (a.take (min a.length b.length)) = .lt := by
      rw [specCompare_swap, hc]
      rfl
    have hlt := specCompare_append_of_lt _ _ (htb.trans hta.symm) hswap
      (b.drop (min a.length b.length)) (a.drop (min a.length b.length))
    rw [List.take_append_drop, List.take_append_drop] at hlt
    rw [specCompare_swap, hlt]
    rfl

theorem cmpLoop_bridge (data : List Nat) (off : Nat) (a b : List Nat)
    (ha : ∀ j, (hj : j < a.length) → data[off + j]? = some (a[j])) :
    ∀ (k i : Nat), i + k = min a.length b.length →
      cmpLoop data off b i k =
        some (specCompare ((a.drop i).take k) ((b.drop i).take k)) := by
  intro k
  induction k with
  | zero => intro i h; simp [cmpLoop, specCompare]
  | succ n ih =>
    intro i h
    have hia : i < a.length := by omega
    have hib : i < b.length := by omega
    have hx := ha i hia
    have hy : b[i]? = some (b[i]) := List.getElem?_eq_getElem hib
    have hda : a.drop i = a[i] :: a.drop (i + 1) := List.drop_eq_getElem_cons hia
    have hdb : b.drop i = b[i] :: b.drop (i + 1) := List.drop_eq_getElem_cons hib
    rw [hda, hdb]
    simp only [cmpLoop, hx, hy, Option.bind_eq_bind, Option.some_bind,
      List.take_succ_cons, specCompare]
    by_cases h1 : a[i] < b[i]
    · simp [h1]
    · by_cases h2 : b[i] < a[i]
      · simp [h1, h2]
      · simp only [if_neg h1, if_neg h2]
        exact ih (i + 1) (by omega)

theorem compareAt_bridge (t : Reserved) (a b : List Nat) (off : Nat)
    (halen : t.data[off - 1]? = some a.length)
    (ha : ∀ j, (hj : j < a.length) → t.data[off + j]? = some (a[j])) :
    t.compareAt b off = some (specCompare a b) := by
  rw [Reserved.compareAt]
  have hloop := cmpLoop_bridge t.data off a b ha (min a.length b.length) 0 (by omega)
  simp only [List.drop_zero] at hloop
  simp only [halen, hloop, Option.bind_eq_bind, Option.some_bind]
  rw [specCompare_eval a b _ rfl]
  split_ifs <;> rfl

theorem hcompareAt_bridge (t : HReserved) (a b : List Nat) (off : Nat)
    (ha32 : a.length = 32) (hb32 : b.length = 32)
    (ha : ∀ j, (hj : j < a.length) → t.data[off + j]? = some (a[j])) :
    t.compareAt b off = some (specCompare a b) := by
  rw [HReserved.compareAt]
  have hloop := cmpLoop_bridge t.data off a b ha 32 0 (by omega)
  simp only [List.drop_zero] at hloop
  rw [hloop]
  congr 1
  rw [← ha32, List.take_length, ha32, ← hb32, List.take_length]

/-! ### Correctness of the shared binary-search loop -/

theorem searchLoop_found (cmp : Nat → Option Ordering) (fetch : Nat → Option Nat)
    (n : Nat) (names : Nat → List Nat) (offv : Nat → Nat) (key : List Nat)
    (Hcmp : ∀ i, i < n → cmp i = some (specCompare (names i) key))
    (Hfetch : ∀ i, i < n → fetch i = some (offv i))
    (Hsort : ∀ i j, i < j → j < n → specCompare (names i) (names j) = .lt)
    (k : Nat) (hk : k < n) (hkey : names k = key) :
    ∀ (fuel start : Nat) (stop : Int),
      (stop + 1 - start).toNat < fuel →
      start ≤ k → (k : Int) ≤ stop → stop < (n : Int) →
      searchLoop cmp fetch fuel start stop = some (some (offv k)) := by
  intro fuel
  induction fuel with
  | zero => intro start stop hmeas _ _ _; omega
  | succ m ih =>
    intro start stop hmeas hsk hks hstop
    have hle : (start : Int) ≤ stop := le_trans (by exact_mod_cast hsk) hks
    have hindexlt : (start + stop.toNat) / 2 < n := by omega
    simp only [searchLoop, if_pos hle, Hcmp _ hindexlt]
    rcases hcmp : specCompare (names ((start + stop.toNat) / 2)) key with _ | _ | _
    · -- the stored name is below the key: the key can only be to the right
      have hgt : (start + stop.toNat) / 2 < k := by
        by_contra hcon
        push_neg at hcon
        rcases Nat.lt_or_ge k ((start + stop.toNat) / 2) with hlt | hge
        · have hs := Hsort k ((start + stop.toNat) / 2) hlt hindexlt
          rw [hkey] at hs
          rw [specCompare_swap, hs] at hcmp
          cases hcmp
        · have hkeq : k = (start + stop.toNat) / 2 := by omega
          rw [← hkeq, hkey, specCompare_refl] at hcmp
          cases hcmp
      simp only [reduceCtorEq, if_false, if_true, reduceIte]
      exact ih ((start + stop.toNat) / 2 + 1) stop (by omega) (by omega) hks hstop
    · -- hit: with strictly sorted distinct names the probe is exactly `k`
      have hik : (start + stop.toNat) / 2 = k := by
        by_contra hcon
        rcases Nat.lt_or_ge ((start + stop.toNat) / 2) k with hlt | hge
        · have hs := Hsort ((start + stop.toNat) / 2) k hlt hk
          have heq := (specCompare_eq_iff _ _).mp hcmp
          rw [heq, ← hkey, specCompare_refl] at hs
          cases hs
        · have hlt2 : k < (start + stop.toNat) / 2 := by omega
          have hs := Hsort k ((start + stop.toNat) / 2) hlt2 hindexlt
          have heq := (specCompare_eq_iff _ _).mp hcmp
          rw [hkey, ← heq, specCompare_refl] at hs
          cases hs
      simp only [reduceIte]
      rw [hik, Hfetch k hk]
      rfl
    · -- the stored name is above the key: go left
      have hlt : k < (start + stop.toNat) / 2 := by
        by_contra hcon
        push_neg at hcon
        rcases Nat.lt_or_ge ((start + stop.toNat) / 2) k with hlt2 | hge
        · have hs := Hsort ((start + stop.toNat) / 2) k hlt2 hk
          rw [hkey] at hs
          rw [hs] at hcmp
          cases hcmp
        · have hkeq : (start + stop.toNat) / 2 = k := by omega
          rw [hkeq, hkey, specCompare_refl] at hcmp
          cases hcmp
      simp only [reduceCtorEq, if_false, reduceIte]
      exact ih start ((((start + stop.toNat) / 2 : Nat) : Int) - 1) (by omega) hsk
        (by omega) (by omega)

theorem searchLoop_total (cmp : Nat → Option Ordering) (fetch : Nat → Option Nat)
    (n : Nat) (names : Nat → List Nat) (offv : Nat → Nat) (key : List Nat)
    (Hcmp : ∀ i, i < n → cmp i = some (specCompare (names i) key))
    (Hfetch : ∀ i, i < n → fetch i = some (offv i)) :
    ∀ (fuel start : Nat) (stop : Int),
      (stop + 1 - start).toNat < fuel → stop < (n : Int) →
      searchLoop cmp fetch fuel start stop = some none ∨
      ∃ i, i < n ∧ searchLoop cmp fetch fuel start stop = some (some (offv i)) ∧
        names i = key := by
  intro fuel
  induction fuel with
  | zero => intro start stop hmeas _; omega
  | succ m ih =>
    intro start stop hmeas hstop
    by_cases hle : (start : Int) ≤ stop
    · have hindexlt : (start + stop.toNat) / 2 < n := by omega
      simp only [searchLoop, if_pos hle, Hcmp _ hindexlt]
      rcases hcmp : specCompare (names ((start + stop.toNat) / 2)) key with _ | _ | _
      · simp only [reduceCtorEq, if_false, reduceIte]
        exact ih ((start + stop.toNat) / 2 + 1) stop (by omega) hstop
      · right
        refine ⟨(start + stop.toNat) / 2, hindexlt, ?_, (specCompare_eq_iff _ _).mp hcmp⟩
        simp only [reduceIte]
        rw [Hfetch _ hindexlt]
        rfl
      · simp only [reduceCtorEq, if_false, reduceIte]
        exact ih start ((((start + stop.toNat) / 2 : Nat) : Int) - 1) (by omega) (by omega)
    · left
      simp only [searchLoop, if_neg hle]

/-! ### Index facts for the generated name-keyed buffer -/

theorem name_index_facts (items : List Item) (nv rv : Nat)
    (hbuflen : (generateRaw items nv rv).length < 4294967296)
    (i : Nat) (hi : i < items.length) (key : List Nat) :
    (⟨generateRaw items nv rv, items.length, largestName items, nv, rv⟩ : Reserved).compareAt
        key (21 + i * (1 + largestName items + 4) + 1) =
      some (specCompare ((items[i]).name) key) ∧
    readU32 (generateRaw items nv rv) (21 + i * (1 + largestName items + 4) + 1 +
        largestName items) = some (poff items i) := by
  obtain ⟨pre, rest, hbuf, hplen⟩ := index_decomp items nv rv i hi
  have hnamelen : (items[i]).name.length ≤ largestName items :=
    largestName_ge items _ (List.getElem_mem hi)
  have hshape : generateRaw items nv rv =
      pre ++ ((items[i]).name.length :: ((items[i]).name ++
        (List.replicate (largestName items - (items[i]).name.length) 0 ++
         (writeU32 (poff items i) ++ rest)))) := by
    rw [hbuf]
    simp [indexEntry, List.append_assoc]
  constructor
  · apply compareAt_bridge _ ((items[i]).name)
    · show (generateRaw items nv rv)[21 + i * (1 + largestName items + 4) + 1 - 1]? = _
      have he : 21 + i * (1 + largestName items + 4) + 1 - 1 = pre.length := by omega
      rw [he, hshape]
      exact byte_at pre _ _ _ rfl
    · intro j hj
      have e2 : generateRaw items nv rv =
          (pre ++ [(items[i]).name.length]) ++ ((items[i]).name ++
            (List.replicate (largestName items - (items[i]).name.length) 0 ++
             (writeU32 (poff items i) ++ rest))) := by
        rw [hshape]
        simp
      have hl : (pre ++ [(items[i]).name.length]).length = pre.length + 1 := by simp
      have hoffe : 21 + i * (1 + largestName items + 4) + 1 + j =
          (pre ++ [(items[i]).name.length]).length + j := by omega
      show (generateRaw items nv rv)[21 + i * (1 + largestName items + 4) + 1 + j]? = _
      rw [e2, hoffe]
      exact bytes_at _ _ _ _ j rfl hj
  · have e3 : generateRaw items nv rv =
        (pre ++ [(items[i]).name.length] ++ (items[i]).name ++
          List.replicate (largestName items - (items[i]).name.length) 0) ++
          (writeU32 (poff items i) ++ rest) := by
      rw [hshape]
      simp [List.append_assoc]
    have hl : (pre ++ [(items[i]).name.length] ++ (items[i]).name ++
        List.replicate (largestName items - (items[i]).name.length) 0).length =
        pre.length + 1 + (items[i]).name.length +
          (largestName items - (items[i]).name.length) := by
      simp
      omega
    rw [e3]
    apply readU32_at_lt
    · omega
    · exact lt_of_le_of_lt (poff_le_length items nv rv i) hbuflen

/-! ### Payload decoding for the generated name-keyed buffer -/

theorem map_mod_id (l : List Nat) (h : ∀ b ∈ l, b < 128) :
    l.map (· % 128) = l := by
  induction l with
  | nil => rfl
  | cons x xs ih =>
    have hx : x % 128 = x := Nat.mod_eq_of_lt (h x (by simp))
    simp only [List.map_cons, hx, ih (fun b hb => h b (by simp [hb]))]

theorem flags_decode (it : Item) :
    ((it.flags % 2 == 1) = it.root) ∧ ((it.flags / 2 % 2 == 1) = it.zeroed) ∧
      ((it.flags / 4 % 2 == 1) = it.customValue.isSome) := by
  rcases it with ⟨n, h, t, root, zeroed, cv⟩
  cases root <;> cases zeroed <;> rcases cv with _ | v <;> simp [Item.flags]

theorem payload_reads (items : List Item) (nv rv : Nat)
    (i : Nat) (hi : i < items.length) (hv : ValidItem (items[i])) :
    targetAt (generateRaw items nv rv) (poff items i) = some ((items[i]).target) ∧
    flagsAt (generateRaw items nv rv) (poff items i) = some ((items[i]).flags) ∧
    (∀ v, (items[i]).customValue = some v →
      valueAt (generateRaw items nv rv) (poff items i) = some v) := by
  obtain ⟨pre, rest, hbuf, hplen⟩ := payload_decomp items nv rv i hi
  have hshape : generateRaw items nv rv =
      pre ++ ((items[i]).target.length :: ((items[i]).target ++
        ((items[i]).flags ::
          ((match (items[i]).customValue with
            | some v => writeU64 v
            | none => []) ++ rest)))) := by
    rw [hbuf]
    simp [payloadBytes, List.append_assoc]
  have hlen0 : (generateRaw items nv rv)[poff items i]? =
      some ((items[i]).target.length) := by
    rw [hshape]
    exact byte_at pre _ _ _ hplen.symm
  have e2 : generateRaw items nv rv =
      (pre ++ [(items[i]).target.length]) ++ ((items[i]).target ++
        (((items[i]).flags ::
          ((match (items[i]).customValue with
            | some v => writeU64 v
            | none => []) ++ rest)))) := by
    rw [hshape]
    simp
  have hl2 : (pre ++ [(items[i]).target.length]).length = poff items i + 1 := by
    simp [hplen]
  have htarget : readBytes (generateRaw items nv rv) (poff items i + 1)
      ((items[i]).target.length) = some ((items[i]).target) := by
    rw [e2]
    exact readBytes_at _ _ _ _ hl2.symm
  refine ⟨?_, ?_, ?_⟩
  · rw [targetAt, hlen0]
    simp only [Option.bind_eq_bind, Option.some_bind, htarget, Option.pure_def]
    rw [map_mod_id _ hv.2.2.2.2.2.1]
  · rw [flagsAt, hlen0]
    simp only [Option.bind_eq_bind, Option.some_bind]
    have e3 : generateRaw items nv rv =
        (pre ++ [(items[i]).target.length] ++ (items[i]).target) ++
          ((items[i]).flags ::
            ((match (items[i]).customValue with
              | some v => writeU64 v
              | none => []) ++ rest)) := by
      rw [hshape]
      simp [List.append_assoc]
    have hl3 : (pre ++ [(items[i]).target.length] ++ (items[i]).target).length =
        poff items i + 1 + (items[i]).target.length := by
      simp [hplen]
      omega
    rw [e3]
    exact byte_at _ _ _ _ hl3.symm
  · intro v hcv
    rw [valueAt, hlen0]
    simp only [Option.bind_eq_bind, Option.some_bind]
    have e4 : generateRaw items nv rv =
        (pre ++ [(items[i]).target.length] ++ (items[i]).target ++
          [(items[i]).flags]) ++ (writeU64 v ++ rest) := by
      rw [hshape, hcv]
      simp [List.append_assoc]
    have hl4 : (pre ++ [(items[i]).target.length] ++ (items[i]).target ++
        [(items[i]).flags]).length =
        poff items i + 1 + (items[i]).target.length + 1 := by
      simp [hplen]
      omega
    have hv53 : v < 18446744073709551616 := by
      have := hv.2.2.2.2.2.2
      rw [hcv] at this
      simp only [Option.getD_some] at this
      omega
    rw [e4]
    exact readU64_at _ _ v _ hl4.symm hv53

/-! ### `_find` on the generated name-keyed buffer -/

theorem find_generated (items : List Item) (nv rv : Nat)
    (hsort : items.Pairwise (fun a b => specCompare a.name b.name = .lt))
    (hbuflen : (generateRaw items nv rv).length < 4294967296)
    (k : Nat) (hk : k < items.length) :
    (⟨generateRaw items nv rv, items.length, largestName items, nv, rv⟩ : Reserved).find
      ((items[k]).name) = some (some (poff items k)) := by
  rw [Reserved.find]
  have hkey : (items.getD k defItem).name = (items[k]).name := by
    rw [List.getD_eq_getElem items defItem hk]
  exact searchLoop_found _ _ items.length
    (fun i => (items.getD i defItem).name) (fun i => poff items i) ((items[k]).name)
    (fun i hi => by
      simp only
      rw [List.getD_eq_getElem items defItem hi]
      exact (name_index_facts items nv rv hbuflen i hi ((items[k]).name)).1)
    (fun i hi => (name_index_facts items nv rv hbuflen i hi ((items[k]).name)).2)
    (fun i j hij hj => by
      simp only
      rw [List.getD_eq_getElem items defItem (lt_trans hij hj),
        List.getD_eq_getElem items defItem hj]
      exact List.pairwise_iff_getElem.mp hsort i j (lt_trans hij hj) hj hij)
    k hk hkey (items.length + 1) 0 ((items.length : Int) - 1)
    (by omega) (by omega) (by omega) (by omega)

theorem find_total_generated (items : List Item) (nv rv : Nat)
    (hbuflen : (generateRaw items nv rv).length < 4294967296) (key : List Nat) :
    (⟨generateRaw items nv rv, items.length, largestName items, nv, rv⟩ : Reserved).find
        key = some none ∨
      ∃ i, i < items.length ∧
        (⟨generateRaw items nv rv, items.length, largestName items, nv,
          rv⟩ : Reserved).find key = some (some (poff items i)) ∧
        (items.getD i defItem).name = key := by
  rw [Reserved.find]
  exact searchLoop_total _ _ items.length
    (fun i => (items.getD i defItem).name) (fun i => poff items i) key
    (fun i hi => by
      simp only
      rw [List.getD_eq_getElem items defItem hi]
      exact (name_index_facts items nv rv hbuflen i hi key).1)
    (fun i hi => (name_index_facts items nv rv hbuflen i hi key).2)
    (items.length + 1) 0 ((items.length : Int) - 1) (by omega) (by omega)

/-! ### `get` on the generated name-keyed buffer -/

theorem get_decode (items : List Item) (nv rv : Nat)
    (i : Nat) (hi : i < items.length) (hvi : ValidItem (items[i]))
    (hfind : (⟨generateRaw items nv rv, items.length, largestName items, nv,
        rv⟩ : Reserved).find ((items[i]).name) = some (some (poff items i)))
    (hgate : ¬((items[i]).name.length = 0 ∨
        (items[i]).name.length > largestName items)) :
    (⟨generateRaw items nv rv, items.length, largestName items, nv,
        rv⟩ : Reserved).get ((items[i]).name) =
      some (some ⟨(items[i]).target, resolveSpec (items[i]) nv rv,
        (items[i]).root⟩) := by
  rw [Reserved.get, if_neg hgate, hfind]
  obtain ⟨htar, hflags, hval⟩ := payload_reads items nv rv i hi hvi
  obtain ⟨hfr, hfz, hfc⟩ := flags_decode (items[i])
  simp only [htar, hflags, hfr, hfz, hfc, Option.bind_eq_bind, Option.some_bind]
  rcases hcv : (items[i]).customValue with _ | v
  · simp only [hcv, Option.isSome_none, Bool.false_eq_true, if_false, Option.some_bind,
      Option.pure_def]
    rcases hr : (items[i]).root <;> rcases hz : (items[i]).zeroed <;>
      simp [resolveSpec, hcv, hr, hz]
  · simp only [hcv, Option.isSome_some, if_true, hval v hcv, Option.some_bind,
      Option.pure_def]
    simp [resolveSpec, hcv]

theorem get_found (items : List Item) (nv rv : Nat)
    (hvalid : ∀ it ∈ items, ValidItem it)
    (hsort : items.Pairwise (fun a b => specCompare a.name b.name = .lt))
    (hbuflen : (generateRaw items nv rv).length < 4294967296)
    (k : Nat) (hk : k < items.length) :
    (⟨generateRaw items nv rv, items.length, largestName items, nv,
        rv⟩ : Reserved).get ((items[k]).name) =
      some (some ⟨(items[k]).target, resolveSpec (items[k]) nv rv,
        (items[k]).root⟩) := by
  have hvk := hvalid _ (List.getElem_mem hk)
  apply get_decode items nv rv k hk hvk
    (find_generated items nv rv hsort hbuflen k hk)
  push_neg
  exact ⟨by have := hvk.1; omega, largestName_ge items _ (List.getElem_mem hk)⟩

theorem get_any (items : List Item) (nv rv : Nat)
    (hvalid : ∀ it ∈ items, ValidItem it)
    (hbuflen : (generateRaw items nv rv).length < 4294967296) (key : List Nat) :
    (⟨generateRaw items nv rv, items.length, largestName items, nv,
        rv⟩ : Reserved).get key = some none ∨
      ∃ i, i < items.length ∧ (items.getD i defItem).name = key ∧
        (⟨generateRaw items nv rv, items.length, largestName items, nv,
          rv⟩ : Reserved).get key =
          some (some ⟨(items.getD i defItem).target,
            resolveSpec (items.getD i defItem) nv rv,
            (items.getD i defItem).root⟩) := by
  by_cases hgate : key.length = 0 ∨ key.length > largestName items
  · left
    rw [Reserved.get, if_pos hgate]
  · rcases find_total_generated items nv rv hbuflen key with hnone | ⟨i, hi, hfind, hname⟩
    · left
      rw [Reserved.get, if_neg hgate, hnone]
    · right
      refine ⟨i, hi, hname, ?_⟩
      have hvi := hvalid _ (List.getElem_mem hi)
      have hgd : items.getD i defItem = items[i] := List.getD_eq_getElem items defItem hi
      rw [hgd] at hname ⊢
      rw [← hname] at hgate ⊢
      exact get_decode items nv rv i hi hvi (by rw [hname]; exact hfind) hgate

theorem has_any (items : List Item) (nv rv : Nat)
    (hbuflen : (generateRaw items nv rv).length < 4294967296) (key : List Nat) :
    (⟨generateRaw items nv rv, items.length, largestName items, nv,
        rv⟩ : Reserved).has key = some none ∨
      ((⟨generateRaw items nv rv, items.length, largestName items, nv,
        rv⟩ : Reserved).has key = some (some true) ∧
        ∃ i, i < items.length ∧ (items.getD i defItem).name = key) ∨
      (⟨generateRaw items nv rv, items.length, largestName items, nv,
        rv⟩ : Reserved).has key = some (some false) := by
  by_cases hgate : key.length = 0 ∨ key.length > largestName items
  · left
    rw [Reserved.has, if_pos hgate]
  · rcases find_total_generated items nv rv hbuflen key with hnone | ⟨i, hi, hfind, hname⟩
    · right; right
      rw [Reserved.has, if_neg hgate, hnone]
      rfl
    · right; left
      constructor
      · rw [Reserved.has, if_neg hgate, hfind]
        rfl
      · exact ⟨i, hi, hname⟩

/-! ### The encode → open → lookup pipeline, name-keyed -/

theorem items_length_lt (items : List Item) (nv rv : Nat)
    (hbuflen : (generateRaw items nv rv).length < 4294967296) :
    items.length < 4294967296 := by
  have hlen := generateRaw_length items nv rv
  have hle : items.length ≤ items.length * (1 + largestName items + 4) :=
    Nat.le_mul_of_pos_right _ (by omega)
  omega

theorem nameLookup_found (items : List Item) (nv rv : Nat)
    (h : ValidInput items nv rv) (k : Nat) (hk : k < items.length) :
    nameLookup (generateRaw items nv rv) ((items[k]).name) =
      some (some ⟨(items[k]).target, resolveSpec (items[k]) nv rv,
        (items[k]).root⟩) := by
  obtain ⟨hvalid, hsort, hnv, hrv, hblen⟩ := h
  rw [nameLookup, openTable_generateRaw items nv rv
    (items_length_lt items nv rv hblen) (by omega) (by omega)]
  exact get_found items nv rv hvalid hsort hblen k hk

theorem nameLookup_any (items : List Item) (nv rv : Nat)
    (h : ValidInput items nv rv) (key : List Nat) :
    nameLookup (generateRaw items nv rv) key = some none ∨
      ∃ i, i < items.length ∧ (items.getD i defItem).name = key ∧
        nameLookup (generateRaw items nv rv) key =
          some (some ⟨(items.getD i defItem).target,
            resolveSpec (items.getD i defItem) nv rv,
            (items.getD i defItem).root⟩) := by
  obtain ⟨hvalid, hsort, hnv, hrv, hblen⟩ := h
  rw [nameLookup, openTable_generateRaw items nv rv
    (items_length_lt items nv rv hblen) (by omega) (by omega)]
  exact get_any items nv rv hvalid hblen key

theorem nameHas_any (items : List Item) (nv rv : Nat)
    (h : ValidInput items nv rv) (key : List Nat) :
    nameHas (generateRaw items nv rv) key = some none ∨
      (nameHas (generateRaw items nv rv) key = some (some true) ∧
        ∃ i, i < items.length ∧ (items.getD i defItem).name = key) ∨
      nameHas (generateRaw items nv rv) key = some (some false) := by
  obtain ⟨hvalid, hsort, hnv, hrv, hblen⟩ := h
  rw [nameHas, openTable_generateRaw items nv rv
    (items_length_lt items nv rv hblen) (by omega) (by omega)]
  exact has_any items nv rv hblen key

/-! ### Layout of the generated hash-keyed buffer -/

theorem hindexEntry_length (off : Nat) (it : Item) (h32 : it.hash.length = 32) :
    (hindexEntry off it).length = 36 := by
  simp [hindexEntry, writeU32, h32]

theorem hindex_entries_const (s : List Item) (base : Nat)
    (h32 : ∀ it ∈ s, it.hash.length = 32) :
    ∀ x ∈ List.zipWith hindexEntry
        (offsetsFrom (fun it => (hpayloadBytes it).length) base s) s,
      x.length = 36 := by
  intro x hx
  obtain ⟨j, hj, rfl⟩ := List.getElem_of_mem hx
  have hj2 : j < s.length := by
    have := List.length_zipWith hindexEntry
      (offsetsFrom (fun it => (hpayloadBytes it).length) base s) s
    rw [this, offsetsFrom_length] at hj
    omega
  rw [List.getElem_zipWith]
  exact hindexEntry_length _ _ (h32 _ (List.getElem_mem hj2))

theorem generateRawHash_length (items : List Item) (nv rv : Nat)
    (h32 : ∀ it ∈ items.insertionSort hashLe, it.hash.length = 32) :
    (generateRawHash items nv rv).length =
      20 + (items.insertionSort hashLe).length * 36 +
        ((items.insertionSort hashLe).map (fun it => (hpayloadBytes it).length)).sum := by
  rw [generateRawHash_eq]
  have hzlen : (List.zipWith hindexEntry
      (offsetsFrom (fun it => (hpayloadBytes it).length)
        (20 + (items.insertionSort hashLe).length * 36) (items.insertionSort hashLe))
      (items.insertionSort hashLe)).length = (items.insertionSort hashLe).length := by
    rw [List.length_zipWith, offsetsFrom_length]
    omega
  have hidx := flatten_length_const
    (List.zipWith hindexEntry
      (offsetsFrom (fun it => (hpayloadBytes it).length)
        (20 + (items.insertionSort hashLe).length * 36) (items.insertionSort hashLe))
      (items.insertionSort hashLe)) 36 (hindex_entries_const _ _ h32)
  rw [hzlen] at hidx
  have hpay : (((items.insertionSort hashLe).map hpayloadBytes).flatten).length =
      ((items.insertionSort hashLe).map (fun it => (hpayloadBytes it).length)).sum := by
    rw [List.length_flatten, List.map_map]
    rfl
  simp only [List.length_append, hidx, hpay, writeU32, writeU64]
  simp [writeU32]

theorem hpoff_le_length (items : List Item) (nv rv i : Nat)
    (h32 : ∀ it ∈ items.insertionSort hashLe, it.hash.length = 32) :
    hpoff (items.insertionSort hashLe) i ≤ (generateRawHash items nv rv).length := by
  rw [generateRawHash_length items nv rv h32, hpoff]
  have := prefix_sum_le (fun it => (hpayloadBytes it).length) (items.insertionSort hashLe) i
  omega

theorem hindex_decomp (items : List Item) (nv rv : Nat) (i : Nat)
    (hi : i < (items.insertionSort hashLe).length)
    (h32 : ∀ it ∈ items.insertionSort hashLe, it.hash.length = 32) :
    ∃ pre rest, generateRawHash items nv rv =
        pre ++ (hindexEntry (hpoff (items.insertionSort hashLe) i)
          ((items.insertionSort hashLe)[i]) ++ rest) ∧
      pre.length = 20 + i * 36 := by
  rw [generateRawHash_eq]
  have hzlen : (List.zipWith hindexEntry
      (offsetsFrom (fun it => (hpayloadBytes it).length)
        (20 + (items.insertionSort hashLe).length * 36) (items.insertionSort hashLe))
      (items.insertionSort hashLe)).length = (items.insertionSort hashLe).length := by
    rw [List.length_zipWith, offsetsFrom_length]
    omega
  obtain ⟨p, q, hflat, hplen⟩ := flatten_chunk _ i (by omega : i < (List.zipWith hindexEntry
    (offsetsFrom (fun it => (hpayloadBytes it).length)
      (20 + (items.insertionSort hashLe).length * 36) (items.insertionSort hashLe))
    (items.insertionSort hashLe)).length)
  have hioff : i < (offsetsFrom (fun it => (hpayloadBytes it).length)
      (20 + (items.insertionSort hashLe).length * 36)
      (items.insertionSort hashLe)).length := by
    rw [offsetsFrom_length]; exact hi
  have hoffi := offsetsFrom_getElem? (fun it => (hpayloadBytes it).length)
    (items.insertionSort hashLe) (20 + (items.insertionSort hashLe).length * 36) i hi
  rw [List.getElem?_eq_getElem hioff] at hoffi
  have hLi : (List.zipWith hindexEntry
      (offsetsFrom (fun it => (hpayloadBytes it).length)
        (20 + (items.insertionSort hashLe).length * 36) (items.insertionSort hashLe))
      (items.insertionSort hashLe))[i] =
      hindexEntry (hpoff (items.insertionSort hashLe) i)
        ((items.insertionSort hashLe)[i]) := by
    rw [List.getElem_zipWith]
    congr 1
    rw [Option.some_inj.mp hoffi, hpoff]
  rw [hLi] at hflat
  have hplen2 : p.length = i * 36 := by
    rw [hplen]
    exact sum_map_take_const List.length 36 _ (hindex_entries_const _ _ h32) i (by omega)
  refine ⟨writeU32 (items.insertionSort hashLe).length ++ writeU64 nv ++ writeU64 rv ++ p,
    q ++ ((items.insertionSort hashLe).map hpayloadBytes).flatten, ?_, ?_⟩
  · rw [hflat]
    simp [List.append_assoc]
  · simp [writeU32, writeU64, hplen2]
    omega

theorem hpayload_decomp (items : List Item) (nv rv : Nat) (i : Nat)
    (hi : i < (items.insertionSort hashLe).length)
    (h32 : ∀ it ∈ items.insertionSort hashLe, it.hash.length = 32) :
    ∃ pre rest, generateRawHash items nv rv =
        pre ++ (hpayloadBytes ((items.insertionSort hashLe)[i]) ++ rest) ∧
      pre.length = hpoff (items.insertionSort hashLe) i := by
  rw [generateRawHash_eq]
  have hmlen : i < ((items.insertionSort hashLe).map hpayloadBytes).length := by
    simpa using hi
  obtain ⟨p, q, hflat, hplen⟩ := flatten_chunk
    ((items.insertionSort hashLe).map hpayloadBytes) i hmlen
  have hMi : ((items.insertionSort hashLe).map hpayloadBytes)[i] =
      hpayloadBytes ((items.insertionSort hashLe)[i]) := List.getElem_map hpayloadBytes
  rw [hMi] at hflat
  have hzlen : (List.zipWith hindexEntry
      (offsetsFrom (fun it => (hpayloadBytes it).length)
        (20 + (items.insertionSort hashLe).length * 36) (items.insertionSort hashLe))
      (items.insertionSort hashLe)).length = (items.insertionSort hashLe).length := by
    rw [List.length_zipWith, offsetsFrom_length]
    omega
  have hidxlen := flatten_length_const
    (List.zipWith hindexEntry
      (offsetsFrom (fun it => (hpayloadBytes it).length)
        (20 + (items.insertionSort hashLe).length * 36) (items.insertionSort hashLe))
      (items.insertionSort hashLe)) 36 (hindex_entries_const _ _ h32)
  rw [hzlen] at hidxlen
  have hplen2 : p.length =
      (((items.insertionSort hashLe).take i).map
        (fun it => (hpayloadBytes it).length)).sum := by
    rw [hplen, ← List.map_take, List.map_map]
    rfl
  refine ⟨writeU32 (items.insertionSort hashLe).length ++ writeU64 nv ++ writeU64 rv ++
      (List.zipWith hindexEntry
        (offsetsFrom (fun it => (hpayloadBytes it).length)
          (20 + (items.insertionSort hashLe).length * 36) (items.insertionSort hashLe))
        (items.insertionSort hashLe)).flatten ++ p,
    q, ?_, ?_⟩
  · rw [hflat]
    simp [List.append_assoc]
  · simp only [List.length_append, hidxlen, hplen2, hpoff]
    simp [writeU32, writeU64]

/-! ### Index facts and search on the generated hash-keyed buffer -/

theorem hash_index_facts (items : List Item) (nv rv : Nat)
    (h32 : ∀ it ∈ items.insertionSort hashLe, it.hash.length = 32)
    (hbuflen : (generateRawHash items nv rv).length < 4294967296)
    (i : Nat) (hi : i < (items.insertionSort hashLe).length)
    (key : List Nat) (hkey32 : key.length = 32) :
    (⟨generateRawHash items nv rv, (items.insertionSort hashLe).length, nv,
        rv⟩ : HReserved).compareAt key (20 + i * 36) =
      some (specCompare (((items.insertionSort hashLe)[i]).hash) key) ∧
    readU32 (generateRawHash items nv rv) (20 + i * 36 + 32) =
      some (hpoff (items.insertionSort hashLe) i) := by
  obtain ⟨pre, rest, hbuf, hplen⟩ := hindex_decomp items nv rv i hi h32
  have hh32 : ((items.insertionSort hashLe)[i]).hash.length = 32 :=
    h32 _ (List.getElem_mem hi)
  have hshape : generateRawHash items nv rv =
      pre ++ (((items.insertionSort hashLe)[i]).hash ++
        (writeU32 (hpoff (items.insertionSort hashLe) i) ++ rest)) := by
    rw [hbuf]
    simp [hindexEntry, List.append_assoc]
  constructor
  · apply hcompareAt_bridge _ (((items.insertionSort hashLe)[i]).hash) key _ hh32 hkey32
    intro j hj
    show (generateRawHash items nv rv)[20 + i * 36 + j]? = _
    rw [hshape]
    have he : 20 + i * 36 + j = pre.length + j := by omega
    rw [he]
    exact bytes_at _ _ _ _ j rfl hj
  · have e2 : generateRawHash items nv rv =
        (pre ++ ((items.insertionSort hashLe)[i]).hash) ++
          (writeU32 (hpoff (items.insertionSort hashLe) i) ++ rest) := by
      rw [hshape]
      simp
    have hl : (pre ++ ((items.insertionSort hashLe)[i]).hash).length =
        pre.length + 32 := by simp [hh32]
    rw [e2]
    apply readU32_at_lt
    · omega
    · exact lt_of_le_of_lt (hpoff_le_length items nv rv i h32) hbuflen

theorem sorted_hashes (items : List Item)
    (hnd : (items.map Item.hash).Nodup) :
    ∀ i j, i < j → j < (items.insertionSort hashLe).length →
      specCompare (((items.insertionSort hashLe).getD i defItem).hash)
        (((items.insertionSort hashLe).getD j defItem).hash) = .lt := by
  have hsorted : (items.insertionSort hashLe).Pairwise hashLe :=
    List.sorted_insertionSort hashLe items
  have hperm := List.perm_insertionSort hashLe items
  have hnd2 : ((items.insertionSort hashLe).map Item.hash).Nodup :=
    ((hperm.map Item.hash).nodup_iff).mpr hnd
  have hne : (items.insertionSort hashLe).Pairwise (fun a b => a.hash ≠ b.hash) := by
    rw [List.Nodup, List.pairwise_map] at hnd2
    exact hnd2
  have hstrict : (items.insertionSort hashLe).Pairwise
      (fun a b => specCompare a.hash b.hash = .lt) := by
    refine (hsorted.and hne).imp ?_
    rintro a b ⟨hle, hab⟩
    rcases (specCompare_ne_gt_iff _ _).mp hle with hlt | heq
    · exact hlt
    · exact absurd heq hab
  intro i j hij hj
  rw [List.getD_eq_getElem _ defItem (lt_trans hij hj), List.getD_eq_getElem _ defItem hj]
  exact List.pairwise_iff_getElem.mp hstrict i j (lt_trans hij hj) hj hij

theorem hfind_generated (items : List Item) (nv rv : Nat)
    (h32 : ∀ it ∈ items.insertionSort hashLe, it.hash.length = 32)
    (hnd : (items.map Item.hash).Nodup)
    (hbuflen : (generateRawHash items nv rv).length < 4294967296)
    (k : Nat) (hk : k < (items.insertionSort hashLe).length) :
    (⟨generateRawHash items nv rv, (items.insertionSort hashLe).length, nv,
        rv⟩ : HReserved).find (((items.insertionSort hashLe)[k]).hash) =
      some (some (hpoff (items.insertionSort hashLe) k)) := by
  rw [HReserved.find]
  have hkey : ((items.insertionSort hashLe).getD k defItem).hash =
      ((items.insertionSort hashLe)[k]).hash := by
    rw [List.getD_eq_getElem _ defItem hk]
  have hkey32 : (((items.insertionSort hashLe)[k]).hash).length = 32 :=
    h32 _ (List.getElem_mem hk)
  exact searchLoop_found _ _ (items.insertionSort hashLe).length
    (fun i => ((items.insertionSort hashLe).getD i defItem).hash)
    (fun i => hpoff (items.insertionSort hashLe) i)
    (((items.insertionSort hashLe)[k]).hash)
    (fun i hi => by
      simp only
      rw [List.getD_eq_getElem _ defItem hi]
      exact (hash_index_facts items nv rv h32 hbuflen i hi _ hkey32).1)
    (fun i hi => (hash_index_facts items nv rv h32 hbuflen i hi
      (((items.insertionSort hashLe)[k]).hash) hkey32).2)
    (sorted_hashes items hnd)
    k hk hkey ((items.insertionSort hashLe).length + 1) 0
    (((items.insertionSort hashLe).length : Int) - 1)
    (by omega) (by omega) (by omega) (by omega)

/-! ### Payload decoding for the generated hash-keyed buffer -/

theorem hpayload_reads (items : List Item) (nv rv : Nat) (i : Nat)
    (hi : i < (items.insertionSort hashLe).length)
    (h32 : ∀ it ∈ items.insertionSort hashLe, it.hash.length = 32)
    (hv : ValidItem ((items.insertionSort hashLe)[i])) :
    targetAt (generateRawHash items nv rv) (hpoff (items.insertionSort hashLe) i) =
      some (((items.insertionSort hashLe)[i]).target) ∧
    flagsAt (generateRawHash items nv rv) (hpoff (items.insertionSort hashLe) i) =
      some (((items.insertionSort hashLe)[i]).flags) ∧
    indexAt (generateRawHash items nv rv) (hpoff (items.insertionSort hashLe) i) =
      some ((((items.insertionSort hashLe)[i]).target).findIdx (· == 46)) ∧
    (∀ v, ((items.insertionSort hashLe)[i]).customValue = some v →
      hvalueAt (generateRawHash items nv rv)
        (hpoff (items.insertionSort hashLe) i) = some v) := by
  obtain ⟨pre, rest, hbuf, hplen⟩ := hpayload_decomp items nv rv i hi h32
  have hshape : generateRawHash items nv rv =
      pre ++ ((((items.insertionSort hashLe)[i]).target.length ::
        (((items.insertionSort hashLe)[i]).target ++
          (((items.insertionSort hashLe)[i]).flags ::
            ((((items.insertionSort hashLe)[i]).target.findIdx (· == 46)) ::
              ((match ((items.insertionSort hashLe)[i]).customValue with
                | some v => writeU64 v
                | none => []) ++ rest)))))) := by
    rw [hbuf]
    simp [hpayloadBytes, List.append_assoc]
  have hlen0 : (generateRawHash items nv rv)[hpoff (items.insertionSort hashLe) i]? =
      some (((items.insertionSort hashLe)[i]).target.length) := by
    rw [hshape]
    exact byte_at pre _ _ _ hplen.symm
  have e2 : generateRawHash items nv rv =
      (pre ++ [((items.insertionSort hashLe)[i]).target.length]) ++
        (((items.insertionSort hashLe)[i]).target ++
          (((items.insertionSort hashLe)[i]).flags ::
            ((((items.insertionSort hashLe)[i]).target.findIdx (· == 46)) ::
              ((match ((items.insertionSort hashLe)[i]).customValue with
                | some v => writeU64 v
                | none => []) ++ rest)))) := by
    rw [hshape]
    simp
  have hl2 : (pre ++ [((items.insertionSort hashLe)[i]).target.length]).length =
      hpoff (items.insertionSort hashLe) i + 1 := by
    simp [hplen]
  have htarget : readBytes (generateRawHash items nv rv)
      (hpoff (items.insertionSort hashLe) i + 1)
      (((items.insertionSort hashLe)[i]).target.length) =
      some (((items.insertionSort hashLe)[i]).target) := by
    rw [e2]
    exact readBytes_at _ _ _ _ hl2.symm
  have e3 : generateRawHash items nv rv =
      (pre ++ [((items.insertionSort hashLe)[i]).target.length] ++
        ((items.insertionSort hashLe)[i]).target) ++
        (((items.insertionSort hashLe)[i]).flags ::
          ((((items.insertionSort hashLe)[i]).target.findIdx (· == 46)) ::
            ((match ((items.insertionSort hashLe)[i]).customValue with
              | some v => writeU64 v
              | none => []) ++ rest))) := by
    rw [hshape]
    simp [List.append_assoc]
  have hl3 : (pre ++ [((items.insertionSort hashLe)[i]).target.length] ++
      ((items.insertionSort hashLe)[i]).target).length =
      hpoff (items.insertionSort hashLe) i + 1 +
        ((items.insertionSort hashLe)[i]).target.length := by
    simp [hplen]
    omega
  have hflags : (generateRawHash items nv rv)[hpoff (items.insertionSort hashLe) i +
      1 + ((items.insertionSort hashLe)[i]).target.length]? =
      some (((items.insertionSort hashLe)[i]).flags) := by
    rw [e3]
    exact byte_at _ _ _ _ hl3.symm
  have e4 : generateRawHash items nv rv =
      (pre ++ [((items.insertionSort hashLe)[i]).target.length] ++
        ((items.insertionSort hashLe)[i]).target ++
        [((items.insertionSort hashLe)[i]).flags]) ++
        ((((items.insertionSort hashLe)[i]).target.findIdx (· == 46)) ::
          ((match ((items.insertionSort hashLe)[i]).customValue with
            | some v => writeU64 v
            | none => []) ++ rest)) := by
    rw [hshape]
    simp [List.append_assoc]
  have hl4 : (pre ++ [((items.insertionSort hashLe)[i]).target.length] ++
      ((items.insertionSort hashLe)[i]).target ++
      [((items.insertionSort hashLe)[i]).flags]).length =
      hpoff (items.insertionSort hashLe) i + 1 +
        ((items.insertionSort hashLe)[i]).target.length + 1 := by
    simp [hplen]
    omega
  have hidx : (generateRawHash items nv rv)[hpoff (items.insertionSort hashLe) i +
      1 + ((items.insertionSort hashLe)[i]).target.length + 1]? =
      some ((((items.insertionSort hashLe)[i]).target).findIdx (· == 46)) := by
    rw [e4]
    exact byte_at _ _ _ _ hl4.symm
  refine ⟨?_, ?_, ?_, ?_⟩
  · rw [targetAt, hlen0]
    simp only [Option.bind_eq_bind, Option.some_bind, htarget, Option.pure_def]
    rw [map_mod_id _ hv.2.2.2.2.2.1]
  · rw [flagsAt, hlen0]
    simpa only [Option.bind_eq_bind, Option.some_bind] using hflags
  · rw [indexAt, hlen0]
    simpa only [Option.bind_eq_bind, Option.some_bind] using hidx
  · intro v hcv
    rw [hvalueAt, hlen0]
    simp only [Option.bind_eq_bind, Option.some_bind]
    have e5 : generateRawHash items nv rv =
        (pre ++ [((items.insertionSort hashLe)[i]).target.length] ++
          ((items.insertionSort hashLe)[i]).target ++
          [((items.insertionSort hashLe)[i]).flags] ++
          [(((items.insertionSort hashLe)[i]).target).findIdx (· == 46)]) ++
          (writeU64 v ++ rest) := by
      rw [hshape, hcv]
      simp [List.append_assoc]
    have hl5 : (pre ++ [((items.insertionSort hashLe)[i]).target.length] ++
        ((items.insertionSort hashLe)[i]).target ++
        [((items.insertionSort hashLe)[i]).flags] ++
        [(((items.insertionSort hashLe)[i]).target).findIdx (· == 46)]).length =
        hpoff (items.insertionSort hashLe) i + 1 +
          ((items.insertionSort hashLe)[i]).target.length + 1 + 1 := by
      simp [hplen]
      omega
    have hv53 : v < 18446744073709551616 := by
      have := hv.2.2.2.2.2.2
      rw [hcv] at this
      simp only [Option.getD_some] at this
      omega
    rw [e5]
    exact readU64_at _ _ v _ hl5.symm hv53

/-! ### `get` on the generated hash-keyed buffer -/

theorem hget_found (items : List Item) (nv rv : Nat)
    (h32 : ∀ it ∈ items.insertionSort hashLe, it.hash.length = 32)
    (hnd : (items.map Item.hash).Nodup)
    (hbuflen : (generateRawHash items nv rv).length < 4294967296)
    (hv : ∀ it ∈ items.insertionSort hashLe, ValidItem it)
    (k : Nat) (hk : k < (items.insertionSort hashLe).length) :
    (⟨generateRawHash items nv rv, (items.insertionSort hashLe).length, nv,
        rv⟩ : HReserved).get (((items.insertionSort hashLe)[k]).hash) =
      some (some ⟨(((items.insertionSort hashLe)[k]).target).take
          ((((items.insertionSort hashLe)[k]).target).findIdx (· == 46)),
        ((items.insertionSort hashLe)[k]).target,
        resolveSpec ((items.insertionSort hashLe)[k]) nv rv,
        ((items.insertionSort hashLe)[k]).root⟩) := by
  have hk32 : (((items.insertionSort hashLe)[k]).hash).length = 32 :=
    h32 _ (List.getElem_mem hk)
  rw [HReserved.get, if_pos hk32,
    hfind_generated items nv rv h32 hnd hbuflen k hk]
  obtain ⟨htar, hflags, hidx, hval⟩ := hpayload_reads items nv rv k hk h32
    (hv _ (List.getElem_mem hk))
  obtain ⟨hfr, hfz, hfc⟩ := flags_decode ((items.insertionSort hashLe)[k])
  simp only [htar, hflags, hidx, hfr, hfz, hfc, Option.bind_eq_bind,
    Option.some_bind]
  rcases hcv : ((items.insertionSort hashLe)[k]).customValue with _ | v
  · simp only [hcv, Option.isSome_none, Bool.false_eq_true, if_false,
      Option.some_bind, Option.pure_def]
    rcases hr : ((items.insertionSort hashLe)[k]).root <;>
      rcases hz : ((items.insertionSort hashLe)[k]).zeroed <;>
      simp [resolveSpec, hcv, hr, hz]
  · simp only [hcv, Option.isSome_some, if_true, hval v hcv, Option.some_bind,
      Option.pure_def]
    simp [resolveSpec, hcv]

theorem hashLookup_found (items : List Item) (nv rv : Nat)
    (h : HValidInput items nv rv) (it : Item) (hmem : it ∈ items) :
    hashLookup (generateRawHash items nv rv) it.hash =
      some (some ⟨it.target.take (it.target.findIdx (· == 46)), it.target,
        resolveSpec it nv rv, it.root⟩) := by
  obtain ⟨hvalid, hnd, hnv, hrv, hblen⟩ := h
  have hperm := List.perm_insertionSort hashLe items
  have hvalid' : ∀ x ∈ items.insertionSort hashLe, HValidItem x :=
    fun x hx => hvalid x (hperm.mem_iff.mp hx)
  have h32 : ∀ x ∈ items.insertionSort hashLe, x.hash.length = 32 :=
    fun x hx => (hvalid' x hx).2.1
  have hn : (items.insertionSort hashLe).length < 4294967296 := by
    have hlen := generateRawHash_length items nv rv h32
    have hle : (items.insertionSort hashLe).length ≤
        (items.insertionSort hashLe).length * 36 :=
      Nat.le_mul_of_pos_right _ (by omega)
    omega
  have hmem' : it ∈ items.insertionSort hashLe := hperm.mem_iff.mpr hmem
  obtain ⟨k, hk, hkeq⟩ := List.getElem_of_mem hmem'
  rw [hashLookup, openTable_generateRawHash items nv rv hn (by omega) (by omega)]
  rw [← hkeq]
  exact hget_found items nv rv h32 hnd hblen
    (fun x hx => (hvalid' x hx).1) k hk

/-! ### Recovering the name from the target slice -/

theorem findIdx_sep (name rest : List Nat) (h : 46 ∉ name) :
    (name ++ 46 :: rest).findIdx (· == 46) = name.length := by
  induction name with
  | nil => simp [List.findIdx_cons]
  | cons x xs ih =>
    have hx : (x == 46) = false := by
      simp only [beq_eq_false_iff_ne, ne_eq]
      intro hc
      exact h (by simp [hc])
    have hxs : 46 ∉ xs := fun hc => h (by simp [hc])
    simp only [List.cons_append, List.findIdx_cons, hx, Bool.cond_eq_ite,
      Bool.false_eq_true, if_false, List.length_cons, ih hxs]

/-! ### When the constructors succeed -/

theorem readU32_isSome (data : List Nat) (off : Nat) :
    (readU32 data off).isSome ↔ off + 4 ≤ data.length := by
  rw [readU32]
  rcases h0 : data[off]? with _ | b0
  · have hlen : data.length ≤ off := by
      by_contra hc
      push_neg at hc
      rw [List.getElem?_eq_getElem hc] at h0
      cases h0
    simp only [Option.bind_eq_bind, Option.none_bind, Option.isSome_none,
      Bool.false_eq_true, false_iff]
    omega
  · rcases h1 : data[off + 1]? with _ | b1
    · have hlen : data.length ≤ off + 1 := by
        by_contra hc
        push_neg at hc
        rw [List.getElem?_eq_getElem hc] at h1
        cases h1
      simp only [Option.bind_eq_bind, Option.some_bind, Option.none_bind,
        Option.isSome_none, Bool.false_eq_true, false_iff]
      omega
    · rcases h2 : data[off + 2]? with _ | b2
      · have hlen : data.length ≤ off + 2 := by
          by_contra hc
          push_neg at hc
          rw [List.getElem?_eq_getElem hc] at h2
          cases h2
        simp only [Option.bind_eq_bind, Option.some_bind, Option.none_bind,
          Option.isSome_none, Bool.false_eq_true, false_iff]
        omega
      · rcases h3 : data[off + 3]? with _ | b3
        · have hlen : data.length ≤ off + 3 := by
            by_contra hc
            push_neg at hc
            rw [List.getElem?_eq_getElem hc] at h3
            cases h3
          simp only [Option.bind_eq_bind, Option.some_bind, Option.none_bind,
            Option.isSome_none, Bool.false_eq_true, false_iff]
          omega
        · have hlen : off + 3 < data.length := by
            by_contra hc
            push_neg at hc
            rw [List.getElem?_eq_none (by omega)] at h3
            cases h3
          simp only [Option.bind_eq_bind, Option.some_bind, Option.isSome_some,
            Option.pure_def, true_iff]
          omega

theorem readU64_isSome (data : List Nat) (off : Nat) :
    (readU64 data off).isSome ↔ off + 8 ≤ data.length := by
  rw [readU64]
  rcases hlo : readU32 data off with _ | lo
  · have hn : ¬ (off + 4 ≤ data.length) := by
      intro hc
      have := (readU32_isSome data off).mpr hc
      rw [hlo] at this
      cases this
    simp only [Option.bind_eq_bind, Option.none_bind, Option.isSome_none,
      Bool.false_eq_true, false_iff]
    omega
  · rcases hhi : readU32 data (off + 4) with _ | hi
    · have hn : ¬ (off + 4 + 4 ≤ data.length) := by
        intro hc
        have := (readU32_isSome data (off + 4)).mpr hc
        rw [hhi] at this
        cases this
      simp only [Option.bind_eq_bind, Option.some_bind, Option.none_bind,
        Option.isSome_none, Bool.false_eq_true, false_iff]
      omega
    · have hy : off + 4 + 4 ≤ data.length := by
        have := (readU32_isSome data (off + 4)).mp (by rw [hhi]; rfl)
        omega
      simp only [Option.bind_eq_bind, Option.some_bind, Option.isSome_some,
        Option.pure_def, true_iff]
      omega

theorem openTable_isSome (data : List Nat) :
    (Reserved.openTable data).isSome ↔ 21 ≤ data.length := by
  rw [Reserved.openTable]
  rcases h0 : readU32 data 0 with _ | size
  · have hn : ¬ (4 ≤ data.length) := by
      intro hc
      have := (readU32_isSome data 0).mpr (by omega)
      rw [h0] at this
      cases this
    simp only [Option.bind_eq_bind, Option.none_bind, Option.isSome_none,
      Bool.false_eq_true, false_iff]
    omega
  · rcases h5 : readU64 data 5 with _ | nv
    · have hn : ¬ (13 ≤ data.length) := by
        intro hc
        have := (readU64_isSome data 5).mpr (by omega)
        rw [h5] at this
        cases this
      simp only [Option.bind_eq_bind, Option.some_bind, Option.none_bind,
        Option.isSome_none, Bool.false_eq_true, false_iff]
      omega
    · rcases h13 : readU64 data 13 with _ | rv
      · have hn : ¬ (21 ≤ data.length) := by
          intro hc
          have := (readU64_isSome data 13).mpr (by omega)
          rw [h13] at this
          cases this
        simp only [Option.bind_eq_bind, Option.some_bind, Option.none_bind,
          Option.isSome_none, Bool.false_eq_true, false_iff]
        omega
      · have hy : 21 ≤ data.length := by
          have := (readU64_isSome data 13).mp (by rw [h13]; rfl)
          omega
        simp only [Option.bind_eq_bind, Option.some_bind, Option.isSome_some,
          Option.pure_def, true_iff]
        omega

theorem hopenTable_isSome (data : List Nat) :
    (HReserved.openTable data).isSome ↔ 20 ≤ data.length := by
  rw [HReserved.openTable]
  rcases h0 : readU32 data 0 with _ | size
  · have hn : ¬ (4 ≤ data.length) := by
      intro hc
      have := (readU32_isSome data 0).mpr (by omega)
      rw [h0] at this
      cases this
    simp only [Option.bind_eq_bind, Option.none_bind, Option.isSome_none,
      Bool.false_eq_true, false_iff]
    omega
  · rcases h4 : readU64 data 4 with _ | nv
    · have hn : ¬ (12 ≤ data.length) := by
        intro hc
        have := (readU64_isSome data 4).mpr (by omega)
        rw [h4] at this
        cases this
      simp only [Option.bind_eq_bind, Option.some_bind, Option.none_bind,
        Option.isSome_none, Bool.false_eq_true, false_iff]
      omega
    · rcases h12 : readU64 data 12 with _ | rv
      · have hn : ¬ (20 ≤ data.length) := by
          intro hc
          have := (readU64_isSome data 12).mpr (by omega)
          rw [h12] at this
          cases this
        simp only [Option.bind_eq_bind, Option.some_bind, Option.none_bind,
          Option.isSome_none, Bool.false_eq_true, false_iff]
        omega
      · have hy : 20 ≤ data.length := by
          have := (readU64_isSome data 12).mp (by rw [h12]; rfl)
          omega
        simp only [Option.bind_eq_bind, Option.some_bind, Option.isSome_some,
          Option.pure_def, true_iff]
        omega

/-! ### Header default values are recovered exactly -/

theorem generateRaw_defaults (items : List Item) (nv rv : Nat)
    (hnv : nv < 18446744073709551616) (hrv : rv < 18446744073709551616) :
    readU64 (generateRaw items nv rv) 5 = some nv ∧
    readU64 (generateRaw items nv rv) 13 = some rv := by
  have hshape : generateRaw items nv rv =
      writeU32 items.length ++ (largestName items :: (writeU64 nv ++ (writeU64 rv ++
        ((List.zipWith (indexEntry (largestName items))
          (offsetsFrom (fun it => (payloadBytes it).length)
            (21 + items.length * (1 + largestName items + 4)) items) items).flatten ++
         (items.map payloadBytes).flatten)))) := by
    rw [generateRaw_eq]
    simp [List.append_assoc]
  constructor
  · have e : generateRaw items nv rv =
        (writeU32 items.length ++ [largestName items]) ++ (writeU64 nv ++ (writeU64 rv ++
          ((List.zipWith (indexEntry (largestName items))
            (offsetsFrom (fun it => (payloadBytes it).length)
              (21 + items.length * (1 + largestName items + 4)) items) items).flatten ++
           (items.map payloadBytes).flatten))) := by
      rw [hshape]
      simp
    rw [e]
    exact readU64_at _ _ nv 5 (by simp [writeU32]) hnv
  · have e : generateRaw items nv rv =
        (writeU32 items.length ++ [largestName items] ++ writeU64 nv) ++ (writeU64 rv ++
          ((List.zipWith (indexEntry (largestName items))
            (offsetsFrom (fun it => (payloadBytes it).length)
              (21 + items.length * (1 + largestName items + 4)) items) items).flatten ++
           (items.map payloadBytes).flatten)) := by
      rw [hshape]
      simp
    rw [e]
    exact readU64_at _ _ rv 13 (by simp [writeU32, writeU64]) hrv

theorem generateRawHash_defaults (items : List Item) (nv rv : Nat)
    (hnv : nv < 18446744073709551616) (hrv : rv < 18446744073709551616) :
    readU64 (generateRawHash items nv rv) 4 = some nv ∧
    readU64 (generateRawHash items nv rv) 12 = some rv := by
  have hshape : generateRawHash items nv rv =
      writeU32 (items.insertionSort hashLe).length ++ (writeU64 nv ++ (writeU64 rv ++
        ((List.zipWith hindexEntry
          (offsetsFrom (fun it => (hpayloadBytes it).length)
            (20 + (items.insertionSort hashLe).length * 36) (items.insertionSort hashLe))
          (items.insertionSort hashLe)).flatten ++
         ((items.insertionSort hashLe).map hpayloadBytes).flatten))) := by
    rw [generateRawHash_eq]
    simp [List.append_assoc]
  constructor
  · rw [hshape]
    exact readU64_at _ _ nv 4 (by simp [writeU32]) hnv
  · have e : generateRawHash items nv rv =
        (writeU32 (items.insertionSort hashLe).length ++ writeU64 nv) ++ (writeU64 rv ++
          ((List.zipWith hindexEntry
            (offsetsFrom (fun it => (hpayloadBytes it).length)
              (20 + (items.insertionSort hashLe).length * 36) (items.insertionSort hashLe))
            (items.insertionSort hashLe)).flatten ++
           ((items.insertionSort hashLe).map hpayloadBytes).flatten)) := by
      rw [hshape]
      simp
    rw [e]
    exact readU64_at _ _ rv 12 (by simp [writeU32, writeU64]) hrv

/-! ### The claims -/

/-- C1: for every record in the finalized list encoded by the name-keyed
encoder with defaults `nameValue` and `rootValue`, looking up `record.name`
on the opened table returns a non-null result whose `target` equals
`record.target`, whose `root` equals `record.root`, and whose `value`
equals the §4.1 resolution of that record against the table's stored
defaults. -/
theorem c1_name_roundtrip (items : List Item) (nv rv : Nat)
    (h : ValidInput items nv rv) (it : Item) (hmem : it ∈ items) :
    nameLookup (generateRaw items nv rv) it.name =
      some (some ⟨it.target, resolveSpec it nv rv, it.root⟩) := by
  obtain ⟨k, hk, rfl⟩ := List.getElem_of_mem hmem
  exact nameLookup_found items nv rv h k hk

/-- Witness for C1: the spec §8 scenario's "com" record round-trips. -/
theorem c1_name_roundtrip_witness :
    ValidInput demoItems 1000 2000 ∧ itemCom ∈ demoItems ∧
    nameLookup (generateRaw demoItems 1000 2000) itemCom.name =
      some (some ⟨itemCom.target, resolveSpec itemCom 1000 2000, itemCom.root⟩) :=
  ⟨by decide, by decide,
    c1_name_roundtrip demoItems 1000 2000 (by decide) itemCom (by decide)⟩

/-- C2: the reader derives the value as root-default first, then zeroes it
for the embargo flag, and applies a present custom value last; hence for a
record with both the zeroed flag and a custom value, the returned value is
the custom value — the zeroed flag's effect is overwritten. -/
theorem c2_custom_applied_after_zeroed (items : List Item) (nv rv : Nat)
    (h : ValidInput items nv rv) (it : Item) (hmem : it ∈ items) (v : Nat)
    (hz : it.zeroed = true) (hc : it.customValue = some v) :
    nameLookup (generateRaw items nv rv) it.name =
      some (some ⟨it.target, v, it.root⟩) := by
  obtain ⟨k, hk, rfl⟩ := List.getElem_of_mem hmem
  have hres := nameLookup_found items nv rv h k hk
  rw [hres]
  simp [resolveSpec, hc]

/-- Witness for C2: a record that is both zeroed and custom-valued (5000)
comes back with value 5000, not 0. -/
theorem c2_custom_applied_after_zeroed_witness :
    ValidInput demoZcItems 1000 2000 ∧ itemZc ∈ demoZcItems ∧
    itemZc.zeroed = true ∧ itemZc.customValue = some 5000 ∧
    nameLookup (generateRaw demoZcItems 1000 2000) itemZc.name =
      some (some ⟨itemZc.target, 5000, itemZc.root⟩) :=
  ⟨by decide, by decide, by decide, by decide,
    c2_custom_applied_after_zeroed demoZcItems 1000 2000 (by decide) itemZc
      (by decide) 5000 (by decide) (by decide)⟩

/-- C3: the name index is sorted by byte-wise comparison with the
shorter-is-less tie-break (`specCompare`, the modelled `util.compare`), the
reader's `_compare` at every stored entry replicates exactly this order
against any query, and every stored name — including byte-front pairs such
as "co"/"com" — is located by the binary search. -/
theorem c3_sorted_index_and_search (items : List Item) (nv rv : Nat)
    (h : ValidInput items nv rv) :
    (∀ i j, i < j → j < items.length →
      specCompare ((items.getD i defItem).name) ((items.getD j defItem).name) = .lt) ∧
    (∀ t, Reserved.openTable (generateRaw items nv rv) = some t →
      ∀ i, i < items.length → ∀ key : List Nat,
        t.compareAt key (21 + i * t.indexSize + 1) =
          some (specCompare ((items.getD i defItem).name) key)) ∧
    (∀ it ∈ items, ∃ r : LookupResult,
      nameLookup (generateRaw items nv rv) it.name = some (some r)) := by
  obtain ⟨hvalid, hsort, hnv, hrv, hblen⟩ := h
  refine ⟨?_, ?_, ?_⟩
  · intro i j hij hj
    rw [List.getD_eq_getElem _ _ (lt_trans hij hj), List.getD_eq_getElem _ _ hj]
    exact List.pairwise_iff_getElem.mp hsort i j (lt_trans hij hj) hj hij
  · intro t ht i hi key
    rw [openTable_generateRaw items nv rv (items_length_lt items nv rv hblen)
      (by omega) (by omega)] at ht
    obtain rfl := Option.some_inj.mp ht
    rw [List.getD_eq_getElem _ _ hi]
    exact (name_index_facts items nv rv hblen i hi key).1
  · intro it hmem
    obtain ⟨k, hk, rfl⟩ := List.getElem_of_mem hmem
    exact ⟨_, nameLookup_found items nv rv ⟨hvalid, hsort, hnv, hrv, hblen⟩ k hk⟩

/-- Witness for C3: with "co" and "com" both stored, each is found. -/
theorem c3_sorted_index_and_search_witness :
    ValidInput demoCoComItems 1000 2000 ∧
    (∀ it ∈ demoCoComItems, ∃ r : LookupResult,
      nameLookup (generateRaw demoCoComItems 1000 2000) it.name = some (some r)) :=
  ⟨by decide,
    (c3_sorted_index_and_search demoCoComItems 1000 2000 (by decide)).2.2⟩

/-- C4: encoding `{com, root}` / `{bitcoin}` / `{cu, zeroed}` (in the
pipeline's sorted order) with `nameValue = 1000`, `rootValue = 2000` and
opening the result gives `lookup("com") = {target:"com.", 2000, root}`,
`lookup("bitcoin") = {target:"bitcoin.", 1000}`,
`lookup("cu") = {target:"cu.", 0}`, and `lookup("xyz")` not found. -/
theorem c4_concrete_scenario :
    nameLookup (generateRaw demoItems 1000 2000) [99, 111, 109] =
      some (some ⟨[99, 111, 109, 46], 2000, true⟩) ∧
    nameLookup (generateRaw demoItems 1000 2000) [98, 105, 116, 99, 111, 105, 110] =
      some (some ⟨[98, 105, 116, 99, 111, 105, 110, 46], 1000, false⟩) ∧
    nameLookup (generateRaw demoItems 1000 2000) [99, 117] =
      some (some ⟨[99, 117, 46], 0, false⟩) ∧
    nameLookup (generateRaw demoItems 1000 2000) [120, 121, 122] = some none := by
  decide

/-- C5: the hash-keyed payload stores one byte `labelLength`, the position
of the first separator in `target`, and a successful lookup of a stored
record's hash recovers the record's name as `target[0:labelLength]`
whenever the target is the name, a separator, and the rest of the
domain. -/
theorem c5_hash_label_and_name (items : List Item) (nv rv : Nat)
    (h : HValidInput items nv rv) (it : Item) (hmem : it ∈ items)
    (rest : List Nat) (htar : it.target = it.name ++ 46 :: rest)
    (hsep : 46 ∉ it.name) :
    (hpayloadBytes it).getD (2 + it.target.length) 0 = it.name.length ∧
    hashLookup (generateRawHash items nv rv) it.hash =
      some (some ⟨it.name, it.target, resolveSpec it nv rv, it.root⟩) := by
  have hidx : it.target.findIdx (· == 46) = it.name.length := by
    rw [htar]
    exact findIdx_sep it.name rest hsep
  constructor
  · have hshape : hpayloadBytes it =
        ([it.target.length] ++ it.target ++ [it.flags]) ++
          ((it.target.findIdx (· == 46)) ::
            (match it.customValue with
             | some v => writeU64 v
             | none => [])) := by
      simp [hpayloadBytes]
    have hplen : ([it.target.length] ++ it.target ++ [it.flags]).length =
        2 + it.target.length := by
      simp
      omega
    rw [List.getD_eq_getElem?_getD, hshape,
      byte_at _ _ _ _ hplen.symm]
    simpa using hidx
  · have hfound := hashLookup_found items nv rv h it hmem
    rw [hfound, hidx, htar]
    simp [List.take_left]

/-- Witness for C5: the hash of "com" recovers name "com" from target
"com.". -/
theorem c5_hash_label_and_name_witness :
    HValidInput demoHashItems 1000 2000 ∧ hitemCom ∈ demoHashItems ∧
    hitemCom.target = hitemCom.name ++ 46 :: [] ∧ 46 ∉ hitemCom.name ∧
    ((hpayloadBytes hitemCom).getD (2 + hitemCom.target.length) 0 =
      hitemCom.name.length ∧
    hashLookup (generateRawHash demoHashItems 1000 2000) hitemCom.hash =
      some (some ⟨hitemCom.name, hitemCom.target,
        resolveSpec hitemCom 1000 2000, hitemCom.root⟩)) :=
  ⟨by decide, by decide, by decide, by decide,
    c5_hash_label_and_name demoHashItems 1000 2000 (by decide) hitemCom
      (by decide) [] (by decide) (by decide)⟩

/-- C6 counterexample: on the hash-keyed table a zero-length key does not
return "not found" — `get` asserts a 32-byte buffer, so the lookup is an
error (`none`), never the null result (`some none`). -/
theorem c6_counterexample_hash_empty_key :
    hashLookup (generateRawHash demoHashItems 1000 2000) [] = none ∧
    hashLookup (generateRawHash demoHashItems 1000 2000) [] ≠ some none := by
  decide

/-- C6 as amended: the name-keyed reader returns null ("not found") for a
zero-length or over-capacity key; the hash-keyed reader instead requires
its key to be exactly 32 bytes and raises an assertion error on any other
length, including the empty key. -/
theorem c6_amended_length_gates :
    (∀ (t : Reserved) (key : List Nat), key.length = 0 ∨ key.length > t.nameSize →
      t.get key = some none ∧ t.has key = some none) ∧
    (∀ (ht : HReserved) (key : List Nat), key.length ≠ 32 →
      ht.get key = none ∧ ht.has key = none) := by
  constructor
  · intro t key hk
    exact ⟨by rw [Reserved.get, if_pos hk], by rw [Reserved.has, if_pos hk]⟩
  · intro ht key hk
    exact ⟨by rw [HReserved.get, if_neg hk], by rw [HReserved.has, if_neg hk]⟩

/-- C7 counterexample: a 21-byte buffer whose record-count field claims 5
records (no index or payload follows) is malformed, yet the constructor
happily returns a table over it. -/
theorem c7_counterexample_malformed_opens :
    Reserved.openTable badBuf = some ⟨badBuf, 5, 0, 0, 0⟩ ∧
    (Reserved.openTable badBuf).isSome = true := by
  decide

/-- C7 as amended: the constructors never check the length fields against
the buffer size; construction fails exactly when the buffer is shorter
than the fixed header (21 bytes name-keyed, 20 bytes hash-keyed), and any
buffer at least that long — however inconsistent — opens. -/
theorem c7_amended_header_only :
    (∀ data : List Nat, (Reserved.openTable data).isSome ↔ 21 ≤ data.length) ∧
    (∀ data : List Nat, (HReserved.openTable data).isSome ↔ 20 ≤ data.length) :=
  ⟨openTable_isSome, hopenTable_isSome⟩

/-- C8: on a buffer produced by the name-keyed encoder from a valid record
list, `get` and `has` are total for every key: they return a result or the
null "not found" and never reach an error (out-of-range read or thrown
exception, both modelled as the outer `none`). -/
theorem c8_lookup_total (items : List Item) (nv rv : Nat)
    (h : ValidInput items nv rv) (key : List Nat) :
    (∃ o, nameLookup (generateRaw items nv rv) key = some o) ∧
    (∃ b, nameHas (generateRaw items nv rv) key = some b) := by
  constructor
  · rcases nameLookup_any items nv rv h key with h1 | ⟨i, _, _, h1⟩ <;> exact ⟨_, h1⟩
  · rcases nameHas_any items nv rv h key with h1 | ⟨h1, _⟩ | h1 <;> exact ⟨_, h1⟩

/-- Witness for C8: lookups of an absent key on the three-record table
error nowhere. -/
theorem c8_lookup_total_witness :
    ValidInput demoItems 1000 2000 ∧
    ((∃ o, nameLookup (generateRaw demoItems 1000 2000) [120, 121, 122] = some o) ∧
     (∃ b, nameHas (generateRaw demoItems 1000 2000) [120, 121, 122] = some b)) :=
  ⟨by decide, c8_lookup_total demoItems 1000 2000 (by decide) [120, 121, 122]⟩

/-- C9: on the name table, for keys of length 1 up to the stored
`nameCapacity`, `has` answers `true` exactly when `get` returns a non-null
result; for a key of length 0 or above the capacity both return the same
null sentinel, so `has` is not boolean-valued over all inputs. -/
theorem c9_has_get_agreement (items : List Item) (nv rv : Nat)
    (h : ValidInput items nv rv) (key : List Nat) :
    (1 ≤ key.length → key.length ≤ largestName items →
      (nameHas (generateRaw items nv rv) key = some (some true) ↔
        ∃ r, nameLookup (generateRaw items nv rv) key = some (some r))) ∧
    ((key.length = 0 ∨ key.length > largestName items) →
      nameHas (generateRaw items nv rv) key = some none ∧
      nameLookup (generateRaw items nv rv) key = some none) := by
  obtain ⟨hvalid, hsort, hnv, hrv, hblen⟩ := h
  have hopen := openTable_generateRaw items nv rv
    (items_length_lt items nv rv hblen) (by omega) (by omega)
  have hhas : nameHas (generateRaw items nv rv) key =
      (⟨generateRaw items nv rv, items.length, largestName items, nv,
        rv⟩ : Reserved).has key := by
    rw [nameHas, hopen]
  have hlook : nameLookup (generateRaw items nv rv) key =
      (⟨generateRaw items nv rv, items.length, largestName items, nv,
        rv⟩ : Reserved).get key := by
    rw [nameLookup, hopen]
  constructor
  · intro h1 h2
    have hgate : ¬(key.length = 0 ∨ key.length > largestName items) := by
      push_neg
      omega
    rw [hhas, hlook]
    rcases find_total_generated items nv rv hblen key with hfind | ⟨i, hi, hfind, hname⟩
    · rw [Reserved.has, if_neg hgate, hfind, Reserved.get, if_neg hgate, hfind]
      constructor
      · intro hx
        simp at hx
      · rintro ⟨r, hr⟩
        simp at hr
    · have hvi := hvalid _ (List.getElem_mem hi)
      have hgd : items.getD i defItem = items[i] := List.getD_eq_getElem items defItem hi
      rw [hgd] at hname
      have hget := get_decode items nv rv i hi hvi (by rw [hname]; exact hfind)
        (by rw [hname]; exact hgate)
      rw [hname] at hget
      rw [Reserved.has, if_neg hgate, hfind, hget]
      constructor
      · intro _
        exact ⟨_, rfl⟩
      · intro _
        rfl
  · intro hgate
    rw [hhas, hlook, Reserved.has, if_pos hgate, Reserved.get, if_pos hgate]
    exact ⟨rfl, rfl⟩

/-- Witness for C9: at key "cu" (in range) the agreement holds on the
three-record table. -/
theorem c9_has_get_agreement_witness :
    ValidInput demoItems 1000 2000 ∧
    ((1 ≤ ([99, 117] : List Nat).length →
      ([99, 117] : List Nat).length ≤ largestName demoItems →
      (nameHas (generateRaw demoItems 1000 2000) [99, 117] = some (some true) ↔
        ∃ r, nameLookup (generateRaw demoItems 1000 2000) [99, 117] =
          some (some r))) ∧
     ((([99, 117] : List Nat).length = 0 ∨
        ([99, 117] : List Nat).length > largestName demoItems) →
      nameHas (generateRaw demoItems 1000 2000) [99, 117] = some none ∧
      nameLookup (generateRaw demoItems 1000 2000) [99, 117] = some none)) :=
  ⟨by decide, c9_has_get_agreement demoItems 1000 2000 (by decide) [99, 117]⟩

/-- C10: the reader decodes each stored 64-bit field as
`hi * 2^32 + lo`, and every default the encoder writes is recovered
exactly by the reader's header reads whenever it is below 2^53 (the
safe-integer bound bufio enforces at write time). -/
theorem c10_u64_recovery :
    (∀ (data : List Nat) (off lo hi : Nat), readU32 data off = some lo →
      readU32 data (off + 4) = some hi →
      hi * 4294967296 + lo < 9007199254740992 →
      readU64 data off = some (hi * 4294967296 + lo)) ∧
    (∀ (items : List Item) (nv rv : Nat),
      nv < 9007199254740992 → rv < 9007199254740992 →
      readU64 (generateRaw items nv rv) 5 = some nv ∧
      readU64 (generateRaw items nv rv) 13 = some rv ∧
      readU64 (generateRawHash items nv rv) 4 = some nv ∧
      readU64 (generateRawHash items nv rv) 12 = some rv) := by
  constructor
  · intro data off lo hi hlo hhi _
    rw [readU64, hlo, hhi]
    rfl
  · intro items nv rv hnv hrv
    obtain ⟨a, b⟩ := generateRaw_defaults items nv rv (by omega) (by omega)
    obtain ⟨c, d⟩ := generateRawHash_defaults items nv rv (by omega) (by omega)
    exact ⟨a, b, c, d⟩

end HsNames
